import Mathlib

/-!
Verification development for the `ratemylifedecision` HTTP service
(`internal/httpapi/server.go`, later schema generation).

Strings are modelled as lists of Unicode code points (`List Nat`), the
representation Go itself uses when ranging over a string.  The predicates of
Go's `unicode` package are modelled faithfully over the ASCII and Latin-1
ranges (the ranges exercised by the server's validation rules, lexicons and
slug charset); code points above U+00FF that are letters in full Unicode are
classified as "other" by this model, which is irrelevant to the statements
below (they either restrict to ASCII inputs or are insensitive to the exact
extent of the letter class).

Floating-point arithmetic (`float64`) is modelled by `ℚ`: every computation
in the scoring pipeline is a short combination of sums, divisions and
comparisons whose operands are small, so the rational model tracks the
intended real-number semantics of the Go code.
-/

namespace RMLD

/-- Convert a Lean string literal to the rune-list model (a Go rune is a
Unicode code point, modelled as `Nat`). -/
def strToRunes (s : String) : List Nat := s.data.map Char.toNat

/-- Model of Go `unicode.IsUpper` on the Latin-1 range: `A`–`Z` and
`À`–`Þ` except the multiplication sign `×` (U+00D7). -/
def goIsUpper (r : Nat) : Bool :=
  (65 ≤ r && r ≤ 90) || (192 ≤ r && r ≤ 222 && r ≠ 215)

/-- Model of Go `unicode.IsLower` on the Latin-1 range: `a`–`z`,
`ß`–`ÿ` except the division sign `÷` (U+00F7), and the lowercase
letters `ª` (U+00AA), `µ` (U+00B5), `º` (U+00BA). -/
def goIsLower (r : Nat) : Bool :=
  (97 ≤ r && r ≤ 122) || (223 ≤ r && r ≤ 255 && r ≠ 247) ||
    r == 170 || r == 181 || r == 186

/-- Model of Go `unicode.IsLetter` on the Latin-1 range. -/
def goIsLetter (r : Nat) : Bool := goIsUpper r || goIsLower r

/-- Model of Go `unicode.IsDigit` (category Nd) on the Latin-1 range:
the ASCII digits `0`–`9`. -/
def goIsDigit (r : Nat) : Bool := 48 ≤ r && r ≤ 57

/-- Model of Go `unicode.IsNumber` (category N) on the Latin-1 range:
the ASCII digits together with `²` `³` `¹` `¼` `½` `¾`
(U+00B2, U+00B3, U+00B9, U+00BC, U+00BD, U+00BE). -/
def goIsNumber (r : Nat) : Bool :=
  goIsDigit r || r == 178 || r == 179 || r == 185 ||
    r == 188 || r == 189 || r == 190

/-- Model of Go `unicode.IsSpace` on the Latin-1 range:
`\t \n \v \f \r`, space, NEL (U+0085) and NBSP (U+00A0). -/
def goIsSpace (r : Nat) : Bool :=
  r == 9 || r == 10 || r == 11 || r == 12 || r == 13 ||
    r == 32 || r == 133 || r == 160

/-- Model of Go `unicode.IsControl` on the Latin-1 range:
C0 controls, DEL, and C1 controls. -/
def goIsControl (r : Nat) : Bool :=
  r < 32 || r == 127 || (128 ≤ r && r ≤ 159)

/-- Model of Go `unicode.ToLower` on the Latin-1 range: uppercase letters
are shifted down by 32 (`A`→`a`, `À`→`à`, …, `Þ`→`þ`), everything else is
unchanged. -/
def goToLower (r : Nat) : Nat := if goIsUpper r then r + 32 else r

/-- Model of Go `strings.ToLower`: per-rune lowering. -/
def goToLowerStr (s : List Nat) : List Nat := s.map goToLower

/-- Model of Go `strings.TrimSpace`: drop `unicode.IsSpace` runes from both
ends. -/
def goTrimSpace (s : List Nat) : List Nat :=
  ((s.dropWhile goIsSpace).reverse.dropWhile goIsSpace).reverse

/-- Model of `strings.ReplaceAll(s, "\r\n", "\n")`: scan left to right;
a `\r\n` pair is consumed and replaced by `\n`, any other rune is copied
and the scan resumes at the next rune. -/
def replaceCRLF : List Nat → List Nat
  | c :: d :: rest =>
    if c == 13 && d == 10 then 10 :: replaceCRLF rest
    else c :: replaceCRLF (d :: rest)
  | [c] => [c]
  | [] => []

/-- Model of `strings.ReplaceAll(s, "\r", "\n")`: a single-rune replacement
is a pointwise map. -/
def replaceCR (s : List Nat) : List Nat :=
  s.map fun c => if c = 13 then 10 else c

/-- `normalizeLineBreaks` from `server.go`: CRLF then lone CR become LF. -/
def normalizeLineBreaks (s : List Nat) : List Nat :=
  replaceCR (replaceCRLF s)

/-- `containsDisallowedControlChars` from `server.go`: some control rune is
present, where `\n` and `\t` are tolerated when `allowNewLines` is set. -/
def containsDisallowedControlChars (s : List Nat) (allowNewLines : Bool) : Bool :=
  s.any fun r => goIsControl r && !(allowNewLines && (r == 10 || r == 9))

/-- `normalizeRequiredText` from `server.go`, with the error messages
collapsed to `none` (the claims only depend on acceptance/rejection).
`utf8.RuneCountInString` is the length of the rune list. -/
def normalizeRequiredText (raw : List Nat) (minLen maxLen : Nat)
    (allowNewLines : Bool) : Option (List Nat) :=
  let normalized := goTrimSpace (normalizeLineBreaks raw)
  if normalized = [] then none
  else if containsDisallowedControlChars normalized allowNewLines then none
  else if normalized.length < minLen || maxLen < normalized.length then none
  else some normalized

/-- `normalizeComment` from `server.go` (max length 180, newlines/tabs
allowed); `none` input or blank-after-trim input collapse to a stored
`none`, invalid input is an error (modelled `Except`-style as `none` of the
outer option = error, `some` = accepted stored value). -/
def normalizeComment (comment : Option (List Nat)) :
    Option (Option (List Nat)) :=
  match comment with
  | none => some none
  | some raw =>
    let trimmed := goTrimSpace (normalizeLineBreaks raw)
    if trimmed = [] then some none
    else if containsDisallowedControlChars trimmed true then none
    else if 180 < trimmed.length then none
    else some (some trimmed)

/-- The title length bounds from `server.go` (`titleMinLength`,
`titleMaxLength`). -/
def titleMinLength : Nat := 4

/-- See `titleMinLength`. -/
def titleMaxLength : Nat := 100

/-- `slugify`-loop body from `server.go`: iterate over the (lowered,
trimmed) runes keeping letters/digits, collapsing runs of
whitespace/hyphen/underscore into a single hyphen which is only emitted
when the builder is non-empty (`started`) and the previous emitted rune was
not already a hyphen (`lastHyphen`). -/
def slugifyLoop (started lastHyphen : Bool) : List Nat → List Nat
  | [] => []
  | c :: rest =>
    if goIsLetter c || goIsDigit c then c :: slugifyLoop true false rest
    else if goIsSpace c || c == 45 || c == 95 then
      if !lastHyphen && started then 45 :: slugifyLoop started true rest
      else slugifyLoop started lastHyphen rest
    else slugifyLoop started lastHyphen rest

/-- Model of `strings.Trim(s, "-")`: drop hyphens from both ends. -/
def trimHyphens (s : List Nat) : List Nat :=
  ((s.dropWhile (· == 45)).reverse.dropWhile (· == 45)).reverse

/-- `slugify` from `server.go`. -/
def slugify (input : List Nat) : List Nat :=
  trimHyphens (slugifyLoop false false (goToLowerStr (goTrimSpace input)))

/-- The rune charset accepted by `isValidSlug`: `a`–`z`, `0`–`9`, `-`. -/
def isSlugRune (r : Nat) : Bool :=
  (97 ≤ r && r ≤ 122) || (48 ≤ r && r ≤ 57) || r == 45

/-- `isValidSlug` from `server.go`: no leading or trailing hyphen and every
rune in the slug charset. -/
def isValidSlug (s : List Nat) : Bool :=
  !(s.head? == some 45) && !(s.getLast? == some 45) && s.all isSlugRune

/-- The alphabet of `randSuffix` from `server.go`
(`"abcdefghijklmnopqrstuvwxyz0123456789"`). -/
def suffixAlphabet : List Nat := strToRunes "abcdefghijklmnopqrstuvwxyz0123456789"

/-- `randSuffix` from `server.go`, with the random draws of
`rand.Int(rand.Reader, 36)` made explicit as an input list; each draw is in
`[0, 36)` by the contract of `rand.Int` (the error fallback also writes
`letters[0]`, which `getD`'s default mirrors). -/
def randSuffix (draws : List Nat) : List Nat :=
  draws.map fun n => suffixAlphabet.getD n 97

/-- The slug built by `handleCreateDecision` for a validated title: the
slugified base (with fallback base `"decision"` when empty), a hyphen and
the 5-character random suffix (`fmt.Sprintf("%s-%s", baseSlug,
randSuffix(5))`). -/
def createDecisionSlug (title : List Nat) (draws : List Nat) : List Nat :=
  let baseSlug := if slugify title = [] then strToRunes "decision" else slugify title
  baseSlug ++ 45 :: randSuffix draws

/-- Title validation as performed by `handleCreateDecision`:
`normalizeRequiredText(req.Title, 4, 100, "title", false)`. -/
def validateTitle (raw : List Nat) : Option (List Nat) :=
  normalizeRequiredText raw titleMinLength titleMaxLength false

/-- `clamp` from `server.go`. -/
def clamp (value minValue maxValue : ℚ) : ℚ :=
  if value < minValue then minValue
  else if maxValue < value then maxValue
  else value

/-- The net-sentiment computation of `loadDecisionStats`:
`clamp((avgRating-3.0)/2.0, -1.0, 1.0)`. -/
def netSentiment (avgRating : ℚ) : ℚ :=
  clamp ((avgRating - 3) / 2) (-1) 1

/-- `positiveSentimentWords` from `server.go` (the map is used only for
membership, so a list of its keys is a faithful model). -/
def positiveSentimentWords : List (List Nat) :=
  ["amazing", "better", "benefit", "best", "excellent", "good", "great",
   "growth", "happy", "love", "opportunity", "positive", "safe", "smart",
   "strong", "support", "upside", "worth", "yes", "win"].map strToRunes

/-- `negativeSentimentWords` from `server.go`. -/
def negativeSentimentWords : List (List Nat) :=
  ["bad", "concern", "costly", "difficult", "downside", "expensive", "hard",
   "hate", "loss", "negative", "no", "problem", "risk", "risky", "stress",
   "unsafe", "worse", "worst"].map strToRunes

/-- Model of Go `strings.FieldsFunc`: split at runes satisfying `p`,
dropping empty fields. `acc` is the current field accumulated in reverse. -/
def fieldsFuncAux (p : Nat → Bool) : List Nat → List Nat → List (List Nat)
  | [], acc => if acc = [] then [] else [acc.reverse]
  | c :: rest, acc =>
    if p c then
      if acc = [] then fieldsFuncAux p rest []
      else acc.reverse :: fieldsFuncAux p rest []
    else fieldsFuncAux p rest (c :: acc)

/-- Model of Go `strings.FieldsFunc`. -/
def goFieldsFunc (p : Nat → Bool) (s : List Nat) : List (List Nat) :=
  fieldsFuncAux p s []

/-- The splitting predicate of `analyzeCommentSentiment`:
`!unicode.IsLetter(r) && !unicode.IsNumber(r) && r != '\x27'`
(U+0027 is the apostrophe). -/
def sentimentSplitRune (r : Nat) : Bool :=
  !goIsLetter r && !goIsNumber r && !(r == 39)

/-- The per-word normalization of `analyzeCommentSentiment`:
`strings.ReplaceAll(word, "\x27", "")` strips apostrophes. -/
def stripApostrophes (w : List Nat) : List Nat :=
  w.filter fun r => !(r == 39)

/-- `analyzeCommentSentiment` from `server.go`: lower-case the comment,
split it into words, strip apostrophes from each word, count hits in the
two lexicons, and return `clamp((pos-neg)/(pos+neg), -1, 1)`, with early
`0` returns when there are no words or no hits. -/
def analyzeCommentSentiment (comment : List Nat) : ℚ :=
  let words := goFieldsFunc sentimentSplitRune (goToLowerStr comment)
  if words = [] then 0
  else
    let positiveCount :=
      words.countP fun w => positiveSentimentWords.contains (stripApostrophes w)
    let negativeCount :=
      words.countP fun w => negativeSentimentWords.contains (stripApostrophes w)
    let totalHits := positiveCount + negativeCount
    if totalHits = 0 then 0
    else clamp (((positiveCount : ℚ) - negativeCount) / totalHits) (-1) 1

/-- `suggestionToScore` from `server.go`. -/
def suggestionToScore (suggestion : Int) : ℚ :=
  if suggestion = 1 then -1
  else if suggestion = 2 then 0
  else if suggestion = 3 then 1
  else 0

/-- Recommendation weights from `server.go`. -/
def suggestionWeight : ℚ := 35 / 100

/-- See `suggestionWeight`. -/
def ratingWeight : ℚ := 30 / 100

/-- See `suggestionWeight`. -/
def commentSentimentWeight : ℚ := 20 / 100

/-- See `suggestionWeight`. -/
def postVoteWeight : ℚ := 15 / 100

/-- `recommendationYesThreshold` from `server.go`. -/
def recommendationYesThreshold : ℚ := 0

/-- One row of the `SELECT suggestion, rating, comment FROM responses`
query that feeds `loadRecommendation`. -/
structure RecRow where
  suggestion : Int
  rating : Int
  comment : Option (List Nat)
deriving DecidableEq

/-- The output structure of `loadRecommendation` (`recommendationView`). -/
structure RecommendationView where
  decision : String
  score : ℚ
  suggestionScore : ℚ
  ratingScore : ℚ
  commentSentiment : ℚ
  postVoteScore : ℚ
deriving DecidableEq

/-- The per-decision row-scan totals accumulated by `loadRecommendation`'s
`rows.Next()` loop: response count, comment count, and the three running
sums. -/
def recTotals (rows : List RecRow) : Nat × Nat × ℚ × ℚ × ℚ :=
  rows.foldl
    (fun (acc : Nat × Nat × ℚ × ℚ × ℚ) row =>
      let (responseCount, commentCount, suggTotal, ratingTotal, commentTotal) := acc
      (responseCount + 1,
       commentCount + (if row.comment.isSome then 1 else 0),
       suggTotal + suggestionToScore row.suggestion,
       ratingTotal + clamp (((row.rating : ℚ) - 3) / 2) (-1) 1,
       commentTotal +
         (match row.comment with
          | some c => analyzeCommentSentiment c
          | none => 0)))
    (0, 0, 0, 0, 0)

/-- `loadRecommendation` from `server.go`, as a function of the response
rows of the decision and the `SUM(value)` / `COUNT(*)` aggregates over its
`decision_votes`. -/
def loadRecommendation (rows : List RecRow) (voteSum : Int) (voteCount : Nat) :
    RecommendationView :=
  let (responseCount, commentCount, suggTotal, ratingTotal, commentTotal) :=
    recTotals rows
  let suggestionScore := if 0 < responseCount then suggTotal / responseCount else 0
  let ratingScore := if 0 < responseCount then ratingTotal / responseCount else 0
  let commentSentiment := if 0 < commentCount then commentTotal / commentCount else 0
  let postVoteScore :=
    if 0 < voteCount then clamp ((voteSum : ℚ) / voteCount) (-1) 1 else 0
  let score :=
    clamp
      (suggestionWeight * suggestionScore + ratingWeight * ratingScore +
        commentSentimentWeight * commentSentiment + postVoteWeight * postVoteScore)
      (-1) 1
  { decision := if recommendationYesThreshold ≤ score then "yes" else "no"
    score := score
    suggestionScore := suggestionScore
    ratingScore := ratingScore
    commentSentiment := commentSentiment
    postVoteScore := postVoteScore }

/-- A row of the `decision_votes` table (UUIDs modelled as `Nat`,
timestamps as `Int`). -/
structure VoteRow where
  id : Nat
  decisionId : Nat
  voterViewerId : Nat
  value : Int
  createdAt : Int
deriving DecidableEq

/-- The rows of the table belonging to one (decision, viewer) pair. -/
def pairRows (st : List VoteRow) (d v : Nat) : List VoteRow :=
  st.filter fun r => r.decisionId == d && r.voterViewerId == v

/-- `decisionVoteSummary` from `server.go`. -/
structure DecisionVoteSummary where
  score : Int
  upvotes : Nat
  downvotes : Nat
  myVote : Int
deriving DecidableEq

/-- `queryDecisionVoteSummary` from `server.go`: the aggregate query over
`decision_votes` for one decision (`SUM(value)`, counts of `+1`/`-1`, and
`MAX(value)` over the viewer's rows, `0` when absent). -/
def queryDecisionVoteSummary (st : List VoteRow) (decisionId : Nat)
    (viewerId : Option Nat) : DecisionVoteSummary :=
  let rows := st.filter fun r => r.decisionId == decisionId
  { score := (rows.map (·.value)).sum
    upvotes := rows.countP fun r => r.value == 1
    downvotes := rows.countP fun r => r.value == -1
    myVote :=
      match viewerId with
      | none => 0
      | some v => (((rows.filter fun r => r.voterViewerId == v).map (·.value)).max?).getD 0 }

/-- `toggleDecisionVote` from `server.go`: inside one transaction, read the
pair's existing vote row (`SELECT ... FOR UPDATE`), then either insert a
fresh row (no existing vote), delete it (same value) or update it to the
new value refreshing `created_at` (opposite value), and return the new
state with the recomputed summary.  `newId` is the `uuid.New()` draw and
`now` the transaction time. -/
def toggleDecisionVote (st : List VoteRow) (decisionId viewerId : Nat)
    (value : Int) (newId : Nat) (now : Int) : List VoteRow × DecisionVoteSummary :=
  let existing := st.find? fun r => r.decisionId == decisionId && r.voterViewerId == viewerId
  let st2 :=
    match existing with
    | none => st ++ [⟨newId, decisionId, viewerId, value, now⟩]
    | some r =>
      if r.value = value then st.filter fun q => !(q.id == r.id)
      else st.map fun q =>
        if q.id == r.id then { q with value := value, createdAt := now } else q
  (st2, queryDecisionVoteSummary st2 decisionId (some viewerId))

/-- One call to the toggle endpoint: the pair, the (validated) value, the
fresh `uuid.New()` draw and the transaction time. -/
structure ToggleOp where
  decisionId : Nat
  viewerId : Nat
  value : Int
  newId : Nat
  now : Int

/-- Run a sequence of toggle calls against the `decision_votes` state. -/
def runToggles (st : List VoteRow) : List ToggleOp → List VoteRow
  | [] => st
  | op :: ops =>
    runToggles (toggleDecisionVote st op.decisionId op.viewerId op.value op.newId op.now).1 ops

/-- A toggle-call sequence is valid when each call carries a value the
handler admits (`handleDecisionVote` rejects anything but ±1 with 400) and
a fresh row id (`uuid.New()`). -/
def validOps : List VoteRow → List ToggleOp → Bool
  | _, [] => true
  | st, op :: ops =>
    (op.value == 1 || op.value == -1) &&
      !((st.map (·.id)).contains op.newId) &&
      validOps (toggleDecisionVote st op.decisionId op.viewerId op.value op.newId op.now).1 ops

/-- The table invariant maintained by the schema and the toggle engine:
row ids are unique (primary key), no two rows share a (decision, viewer)
pair (`UNIQUE (decision_id, voter_viewer_id)`), and every value is ±1
(`CHECK (value IN (-1, 1))`). -/
def VoteStateInv (st : List VoteRow) : Prop :=
  (st.map (·.id)).Nodup ∧
  st.Pairwise (fun r q => r.decisionId ≠ q.decisionId ∨ r.voterViewerId ≠ q.voterViewerId) ∧
  ∀ r ∈ st, r.value = 1 ∨ r.value = -1

/-- The state of one `fixedWindowLimiter`: the window and limit set at
construction, the bucket map (an association list keyed by the limiter
key), and the opportunistic-cleanup stamp.  Durations/instants are `Int`
nanoseconds as in Go's `time` package. -/
structure LimiterState where
  window : Int
  limit : Nat
  buckets : List (String × Nat × Int)
  lastCleanup : Int

/-- Go map lookup `l.buckets[key]`. -/
def bucketFind (bs : List (String × Nat × Int)) (key : String) : Option (Nat × Int) :=
  match bs.find? fun e => e.1 == key with
  | some e => some e.2
  | none => none

/-- Go map assignment `l.buckets[key] = bucket`. -/
def bucketSet (bs : List (String × Nat × Int)) (key : String) (v : Nat × Int) :
    List (String × Nat × Int) :=
  if (bs.find? fun e => e.1 == key).isSome then
    bs.map fun e => if e.1 == key then (key, v) else e
  else bs ++ [(key, v)]

/-- The cleanup sweep of `Allow`: delete every bucket whose reset time has
passed (`!now.Before(bucket.resetAt)`). -/
def bucketSweep (bs : List (String × Nat × Int)) (now : Int) :
    List (String × Nat × Int) :=
  bs.filter fun e => now < e.2.2

/-- `fixedWindowLimiter.Allow` from `server.go`: returns whether the call
is admitted and, on denial, the remaining duration until the window
resets, together with the successor state.  (`limit` is `Nat`; the Go
`limit <= 0` early exit is the `limit = 0` case, and the configured limits
are 120 and 60.) -/
def limiterAllow (l : LimiterState) (key : String) (now : Int) :
    (Bool × Int) × LimiterState :=
  if l.limit = 0 then ((true, 0), l)
  else
    let key := if key = "" then "unknown" else key
    let (buckets1, lastCleanup1) :=
      if l.window ≤ now - l.lastCleanup then (bucketSweep l.buckets now, now)
      else (l.buckets, l.lastCleanup)
    let bucket :=
      match bucketFind buckets1 key with
      | some (c, r) => if now < r then (c, r) else (0, now + l.window)
      | none => (0, now + l.window)
    if l.limit ≤ bucket.1 then
      ((false, bucket.2 - now), { l with buckets := buckets1, lastCleanup := lastCleanup1 })
    else
      ((true, 0),
       { l with buckets := bucketSet buckets1 key (bucket.1 + 1, bucket.2),
                lastCleanup := lastCleanup1 })

/-- Run a sequence of `Allow` calls for one key at the given times. -/
def runLimiterCalls (l : LimiterState) (key : String) :
    List Int → List (Bool × Int) × LimiterState
  | [] => ([], l)
  | t :: ts =>
    let (res, l2) := limiterAllow l key t
    let (rest, l3) := runLimiterCalls l2 key ts
    (res :: rest, l3)

/-- The `Retry-After` seconds computed by `writeRateLimitExceeded`:
truncate the nanosecond duration to seconds, round a positive
sub-second remainder up to 1, and floor negatives at 0. -/
def retryAfterSeconds (retryAfter : Int) : Int :=
  let seconds := Int.tdiv retryAfter 1000000000
  let seconds := if 0 < retryAfter ∧ seconds = 0 then 1 else seconds
  if seconds < 0 then 0 else seconds

/-- `ipRateLimitPerMinute` from `server.go`. -/
def ipRateLimitPerMinute : Nat := 120

/-- `viewerRateLimitPerMinute` from `server.go`. -/
def viewerRateLimitPerMinute : Nat := 60

/-- `rateLimitWindow` from `server.go` (`time.Minute` in nanoseconds). -/
def rateLimitWindow : Int := 60 * 1000000000

/-- One JSON value of a request body, abstracted to what `decodeJSON`
inspects: its top-level field names (checked by `DisallowUnknownFields`)
and its encoded size in bytes (checked by `MaxBytesReader`). -/
structure JsonDoc where
  fields : List String
  size : Nat
deriving DecidableEq

/-- A request body as the decoder consumes it: the complete JSON values it
contains in order, and whether malformed bytes follow them. -/
structure RequestBody where
  docs : List JsonDoc
  malformedTail : Bool
deriving DecidableEq

/-- The error classes produced by `decodeJSON`. -/
inductive DecodeError
  | bodyTooLarge
  | invalidJSON
  | unknownField
  | multipleValues
deriving DecidableEq

/-- `decodeJSON` from `server.go`: wrap the body in
`MaxBytesReader(maxBytes)`, run one `Decode` with
`DisallowUnknownFields`, and require the second `Decode` to return
`io.EOF`.  A missing or malformed first value fails the first decode; a
first value larger than the ceiling trips `MaxBytesError` inside it; any
remaining value or trailing garbage makes the second decode return
non-`io.EOF`. -/
def decodeJSON (maxBytes : Nat) (declaredFields : List String)
    (body : RequestBody) : Except DecodeError Unit :=
  match body.docs with
  | [] => .error .invalidJSON
  | d :: rest =>
    if maxBytes < d.size then .error .bodyTooLarge
    else if d.fields.any (fun f => !declaredFields.contains f) then .error .unknownField
    else if rest ≠ [] || body.malformedTail then .error .multipleValues
    else .ok ()

/-- `maxCreateDecisionBodyBytes` from `server.go`. -/
def maxCreateDecisionBodyBytes : Nat := 4 * 1024

/-- `maxResponseBodyBytes` from `server.go`. -/
def maxResponseBodyBytes : Nat := 4 * 1024

/-- `maxVoteBodyBytes` from `server.go`. -/
def maxVoteBodyBytes : Nat := 2 * 1024

/-- The JSON fields of `createDecisionRequest`. -/
def createDecisionFields : List String := ["title", "description", "closes_at"]

/-- The JSON fields of `decisionResponsePayload` (later schema). -/
def decisionResponseFields : List String :=
  ["viewer_id", "rating", "suggestion", "emoji", "comment"]

/-- The JSON fields of `voteRequest` (later schema). -/
def voteRequestFields : List String := ["viewer_id", "value"]

/-- `emojiRatings` from `server.go` (map modelled as an association
list). -/
def emojiRatings : List (List Nat × Int) :=
  [(strToRunes "🫠", 1), (strToRunes "😭", 2), (strToRunes "😬", 3),
   (strToRunes "😄", 4), (strToRunes "🫡", 5)]

/-- Go map lookup `emojiRatings[emoji]`. -/
def emojiLookup (emoji : List Nat) : Option Int :=
  match emojiRatings.find? fun p => p.1 == emoji with
  | some p => some p.2
  | none => none

/-- A row of the `responses` table (later schema). -/
structure ResponseRow where
  id : Nat
  decisionId : Nat
  viewerId : Nat
  rating : Int
  suggestion : Int
  emoji : List Nat
  comment : Option (List Nat)
deriving DecidableEq

/-- A decision as `findDecisionBySlug` returns it, restricted to the
fields `handleCreateResponse` consumes. -/
structure DecisionRec where
  id : Nat
  closesAt : Option Int
deriving DecidableEq

/-- The later-schema `decisionResponsePayload` after JSON decoding:
`viewerId` is the result of `uuid.Parse(strings.TrimSpace(req.ViewerID))`
(`some` iff it parsed), `rating` is the client-sent field, which the later
handler never reads. -/
structure CreateResponseRequest where
  viewerId : Option Nat
  rating : Int
  suggestion : Int
  emoji : List Nat
  comment : Option (List Nat)

/-- The HTTP statuses `handleCreateResponse` can produce. -/
inductive HandlerStatus
  | created
  | badRequest
  | notFound
  | conflict
  | tooManyRequests
deriving DecidableEq

/-- `decision.ClosesAt != nil && time.Now().After(decision.ClosesAt)`. -/
def closesAtPassed (closesAt : Option Int) (now : Int) : Bool :=
  match closesAt with
  | some t => decide (t < now)
  | none => false

/-- `handleCreateResponse` from `server.go` (later schema), after JSON
decoding: validate the viewer id, the viewer rate limit, the suggestion
and the emoji (whose table value becomes the stored rating — the payload's
`rating` is never read), look up the decision (`decision` is the
`findDecisionBySlug` result; `none` = `sql.ErrNoRows`), reject closed
decisions, normalize the comment, and insert, translating a
`unique(decision_id, viewer_id)` violation to 409. -/
def handleCreateResponse (responses : List ResponseRow)
    (req : CreateResponseRequest) (viewerAllowed : Bool)
    (decision : Option DecisionRec) (now : Int) (newId : Nat) :
    HandlerStatus × List ResponseRow :=
  match req.viewerId with
  | none => (.badRequest, responses)
  | some viewerId =>
    if !viewerAllowed then (.tooManyRequests, responses)
    else if req.suggestion < 1 ∨ 3 < req.suggestion then (.badRequest, responses)
    else
      match emojiLookup (goTrimSpace req.emoji) with
      | none => (.badRequest, responses)
      | some rating =>
        match decision with
        | none => (.notFound, responses)
        | some d =>
          if closesAtPassed d.closesAt now then (.conflict, responses)
          else
            match normalizeComment req.comment with
            | none => (.badRequest, responses)
            | some comment =>
              if responses.any fun r => r.decisionId == d.id && r.viewerId == viewerId then
                (.conflict, responses)
              else
                (.created,
                 responses ++
                   [⟨newId, d.id, viewerId, rating, req.suggestion,
                     goTrimSpace req.emoji, comment⟩])

/-- Modelled from the spec (claim wording): the tokenizer splits "on any
rune that is not a letter, digit, or apostrophe". -/
def claimSplitRune (r : Nat) : Bool :=
  !goIsLetter r && !goIsDigit r && !(r == 39)

/-- Modelled from the spec (claim wording): tokenize the comment with the
given splitting predicate into lowercase tokens with apostrophes
stripped, count hits against the two lexicons, and return
`(positiveHits - negativeHits) / (positiveHits + negativeHits)`, or 0
when there are no lexicon hits. -/
def sentimentByTokens (split : Nat → Bool) (comment : List Nat) : ℚ :=
  let tokens := (goFieldsFunc split comment).map
    fun w => stripApostrophes (goToLowerStr w)
  let positiveHits := tokens.countP fun w => positiveSentimentWords.contains w
  let negativeHits := tokens.countP fun w => negativeSentimentWords.contains w
  if positiveHits + negativeHits = 0 then 0
  else ((positiveHits : ℚ) - negativeHits) / (positiveHits + negativeHits)

/-- The comment-sentiment function exactly as the claim words it
(splitting on non-letter, non-digit, non-apostrophe runes). -/
def claimCommentSentiment (comment : List Nat) : ℚ :=
  sentimentByTokens claimSplitRune comment

/-- A rune that may appear in a normalized slug body: a letter or digit
fixed by lowering, or a hyphen. -/
def slugBodyChar (r : Nat) : Bool :=
  ((goIsLetter r || goIsDigit r) && goToLower r == r) || r == 45

/-- No two adjacent hyphens. -/
def noAdjacentHyphens : List Nat → Bool
  | c :: d :: rest => !(c == 45 && d == 45) && noAdjacentHyphens (d :: rest)
  | _ => true

/-- A string already in `slugify` normal form: slug-body runes only, no
adjacent hyphens, and no leading or trailing hyphen. -/
def goodSlug (s : List Nat) : Bool :=
  s.all slugBodyChar && noAdjacentHyphens s &&
    !(s.head? == some 45) && !(s.getLast? == some 45)

/-- Modelled from the spec (claim wording for C2): the mean suggestion
signal, 0 when there are no responses. -/
def suggestionSignal (rows : List RecRow) : ℚ :=
  if rows = [] then 0
  else ((rows.map fun r => suggestionToScore r.suggestion).sum) / rows.length

/-- Modelled from the spec (claim wording for C2): the mean clamped rating
signal, 0 when there are no responses. -/
def ratingSignal (rows : List RecRow) : ℚ :=
  if rows = [] then 0
  else ((rows.map fun r => clamp (((r.rating : ℚ) - 3) / 2) (-1) 1).sum) / rows.length

/-- Modelled from the spec (claim wording for C2): the mean comment
sentiment over responses that carry a comment, 0 when none do. -/
def commentSignal (rows : List RecRow) : ℚ :=
  let commented := rows.filterMap (·.comment)
  if commented = [] then 0
  else ((commented.map analyzeCommentSentiment).sum) / commented.length

/-- Modelled from the spec (claim wording for C2): the mean post-vote
value clamped to [-1, 1], 0 when there are no votes. -/
def postVoteSignal (voteSum : Int) (voteCount : Nat) : ℚ :=
  if voteCount = 0 then 0 else clamp ((voteSum : ℚ) / voteCount) (-1) 1

/-- Modelled from the spec (claim wording for C9): the fixed-window
results for a sequence of calls on one key whose bucket already counts
`count` admissions and resets at `resetAt` — each call is admitted while
the counter is under the limit, and otherwise denied with the remaining
duration until the reset. -/
def expectedAllowResults (count limit : Nat) (resetAt : Int) :
    List Int → List (Bool × Int)
  | [] => []
  | t :: ts =>
    if count < limit then
      (true, 0) :: expectedAllowResults (count + 1) limit resetAt ts
    else
      (false, resetAt - t) :: expectedAllowResults count limit resetAt ts

/-! ## Theorems -/

lemma le_clamp {v lo hi : ℚ} (h : lo ≤ hi) : lo ≤ clamp v lo hi := by
  unfold clamp; split_ifs <;> linarith

lemma clamp_le {v lo hi : ℚ} (h : lo ≤ hi) : clamp v lo hi ≤ hi := by
  unfold clamp; split_ifs <;> linarith

lemma clamp_mono {a b lo hi : ℚ} (hlh : lo ≤ hi) (h : a ≤ b) :
    clamp a lo hi ≤ clamp b lo hi := by
  unfold clamp; split_ifs <;> linarith

lemma clamp_eq_self {v lo hi : ℚ} (h1 : lo ≤ v) (h2 : v ≤ hi) :
    clamp v lo hi = v := by
  unfold clamp; split_ifs <;> linarith

/-- C6: net sentiment is `clamp((avg_rating - 3)/2, -1, 1)`; as a function
of the average rating it is monotone non-decreasing, always within
[-1, 1], and maps 3 to 0, 5 to 1 and 1 to -1. -/
theorem netSentiment_spec :
    (∀ a b : ℚ, a ≤ b → netSentiment a ≤ netSentiment b) ∧
    (∀ a : ℚ, -1 ≤ netSentiment a ∧ netSentiment a ≤ 1) ∧
    netSentiment 3 = 0 ∧ netSentiment 5 = 1 ∧ netSentiment 1 = -1 := by
  refine ⟨fun a b h => clamp_mono (by norm_num) (by linarith),
    fun a => ⟨le_clamp (by norm_num), clamp_le (by norm_num)⟩, ?_, ?_, ?_⟩ <;>
    norm_num [netSentiment, clamp]

/-- Witness for `netSentiment_spec` at average ratings 2 and 4. -/
theorem netSentiment_spec_witness :
    (2 : ℚ) ≤ 4 ∧ netSentiment 2 ≤ netSentiment 4 :=
  ⟨by norm_num, netSentiment_spec.1 2 4 (by norm_num)⟩

lemma recTotals_go (rows : List RecRow) :
    ∀ (a b : Nat) (x y z : ℚ),
      rows.foldl
        (fun (acc : Nat × Nat × ℚ × ℚ × ℚ) row =>
          let (responseCount, commentCount, suggTotal, ratingTotal, commentTotal) := acc
          (responseCount + 1,
           commentCount + (if row.comment.isSome then 1 else 0),
           suggTotal + suggestionToScore row.suggestion,
           ratingTotal + clamp (((row.rating : ℚ) - 3) / 2) (-1) 1,
           commentTotal +
             (match row.comment with
              | some c => analyzeCommentSentiment c
              | none => 0)))
        (a, b, x, y, z) =
      (a + rows.length,
       b + rows.countP (fun r => r.comment.isSome),
       x + (rows.map fun r => suggestionToScore r.suggestion).sum,
       y + (rows.map fun r => clamp (((r.rating : ℚ) - 3) / 2) (-1) 1).sum,
       z + (rows.map fun r =>
             match r.comment with
             | some c => analyzeCommentSentiment c
             | none => 0).sum) := by
  induction rows with
  | nil => simp
  | cons head tail ih =>
    intro a b x y z
    simp only [List.foldl_cons, List.length_cons, List.countP_cons, List.map_cons,
      List.sum_cons, ih]
    refine congrArg₂ Prod.mk (by omega) (congrArg₂ Prod.mk ?_ ?_)
    · by_cases h : head.comment.isSome
      · simp [h]; omega
      · simp [h]
    · refine congrArg₂ Prod.mk (by ring) (congrArg₂ Prod.mk (by ring) (by ring))

lemma recTotals_eq (rows : List RecRow) :
    recTotals rows =
      (rows.length,
       rows.countP (fun r => r.comment.isSome),
       (rows.map fun r => suggestionToScore r.suggestion).sum,
       (rows.map fun r => clamp (((r.rating : ℚ) - 3) / 2) (-1) 1).sum,
       (rows.map fun r =>
         match r.comment with
         | some c => analyzeCommentSentiment c
         | none => 0).sum) := by
  have := recTotals_go rows 0 0 0 0 0
  simpa [recTotals] using this

lemma comment_filterMap_length (rows : List RecRow) :
    (rows.filterMap (·.comment)).length = rows.countP (fun r => r.comment.isSome) := by
  induction rows with
  | nil => rfl
  | cons head tail ih =>
    cases h : head.comment <;>
      simp [List.filterMap_cons, List.countP_cons, h, ih]

lemma comment_filterMap_sum (rows : List RecRow) :
    ((rows.filterMap (·.comment)).map analyzeCommentSentiment).sum =
      (rows.map fun r =>
        match r.comment with
        | some c => analyzeCommentSentiment c
        | none => 0).sum := by
  induction rows with
  | nil => rfl
  | cons head tail ih =>
    cases h : head.comment <;> simp [List.filterMap_cons, h, ih]

lemma loadRecommendation_signals (rows : List RecRow) (voteSum : Int) (voteCount : Nat) :
    loadRecommendation rows voteSum voteCount =
      { decision :=
          if recommendationYesThreshold ≤
              clamp (suggestionWeight * suggestionSignal rows +
                ratingWeight * ratingSignal rows +
                commentSentimentWeight * commentSignal rows +
                postVoteWeight * postVoteSignal voteSum voteCount) (-1) 1
          then "yes" else "no"
        score :=
          clamp (suggestionWeight * suggestionSignal rows +
            ratingWeight * ratingSignal rows +
            commentSentimentWeight * commentSignal rows +
            postVoteWeight * postVoteSignal voteSum voteCount) (-1) 1
        suggestionScore := suggestionSignal rows
        ratingScore := ratingSignal rows
        commentSentiment := commentSignal rows
        postVoteScore := postVoteSignal voteSum voteCount } := by
  have h1 : (if 0 < rows.length then
        ((rows.map fun r => suggestionToScore r.suggestion).sum) / (rows.length : ℚ)
      else 0) = suggestionSignal rows := by
    unfold suggestionSignal
    rcases eq_or_ne rows [] with h | h
    · simp [h]
    · simp [h, List.length_pos.mpr h]
  have h2 : (if 0 < rows.length then
        ((rows.map fun r => clamp (((r.rating : ℚ) - 3) / 2) (-1) 1).sum) / (rows.length : ℚ)
      else 0) = ratingSignal rows := by
    unfold ratingSignal
    rcases eq_or_ne rows [] with h | h
    · simp [h]
    · simp [h, List.length_pos.mpr h]
  have h3 : (if 0 < rows.countP (fun r => r.comment.isSome) then
        ((rows.map fun r =>
          match r.comment with
          | some c => analyzeCommentSentiment c
          | none => 0).sum) / ((rows.countP fun r => r.comment.isSome : Nat) : ℚ)
      else 0) = commentSignal rows := by
    unfold commentSignal
    rw [← comment_filterMap_length, ← comment_filterMap_sum]
    rcases eq_or_ne (rows.filterMap (·.comment)) [] with h | h
    · simp [h]
    · simp [h, List.length_pos.mpr h]
  have h4 : (if 0 < voteCount then clamp ((voteSum : ℚ) / voteCount) (-1) 1 else 0) =
      postVoteSignal voteSum voteCount := by
    unfold postVoteSignal
    rcases Nat.eq_zero_or_pos voteCount with h | h
    · simp [h]
    · simp [h, Nat.pos_iff_ne_zero.mp h]
  unfold loadRecommendation
  rw [recTotals_eq]
  simp only [← h1, ← h2, ← h3, ← h4]

/-- C2: the recommendation score equals
`clamp(0.35*suggestionScore + 0.30*ratingScore + 0.20*commentSentiment +
0.15*postVoteScore, -1, 1)` where each signal is the corresponding mean
and is 0 when its inputs are missing (no responses, no comments, no
votes), with no renormalization; the decision is `"yes"` iff the score is
≥ 0, so with no data at all the score is 0 and the decision is `"yes"`. -/
theorem loadRecommendation_spec :
    ∀ (rows : List RecRow) (voteSum : Int) (voteCount : Nat),
      (loadRecommendation rows voteSum voteCount).score =
        clamp (suggestionWeight * suggestionSignal rows +
          ratingWeight * ratingSignal rows +
          commentSentimentWeight * commentSignal rows +
          postVoteWeight * postVoteSignal voteSum voteCount) (-1) 1 ∧
      (loadRecommendation rows voteSum voteCount).suggestionScore = suggestionSignal rows ∧
      (loadRecommendation rows voteSum voteCount).ratingScore = ratingSignal rows ∧
      (loadRecommendation rows voteSum voteCount).commentSentiment = commentSignal rows ∧
      (loadRecommendation rows voteSum voteCount).postVoteScore =
        postVoteSignal voteSum voteCount ∧
      ((loadRecommendation rows voteSum voteCount).decision = "yes" ↔
        0 ≤ (loadRecommendation rows voteSum voteCount).score) ∧
      (loadRecommendation [] 0 0).score = 0 ∧
      (loadRecommendation [] 0 0).decision = "yes" := by
  have hempty : (loadRecommendation [] 0 0).score = 0 := by
    rw [loadRecommendation_signals]
    norm_num [suggestionSignal, ratingSignal, commentSignal, postVoteSignal, clamp]
  intro rows voteSum voteCount
  rw [loadRecommendation_signals]
  refine ⟨rfl, rfl, rfl, rfl, rfl, ?_, hempty, ?_⟩
  · unfold recommendationYesThreshold
    split_ifs with h
    · exact iff_of_true rfl h
    · refine iff_of_false ?_ h
      simp
  · rw [loadRecommendation_signals]
    have : (0 : ℚ) ≤ clamp (suggestionWeight * suggestionSignal [] +
        ratingWeight * ratingSignal [] +
        commentSentimentWeight * commentSignal [] +
        postVoteWeight * postVoteSignal 0 0) (-1) 1 := by
      norm_num [suggestionSignal, ratingSignal, commentSignal, postVoteSignal, clamp]
    simp [recommendationYesThreshold, this]

lemma goIsUpper_eq_true_iff (r : Nat) :
    goIsUpper r = true ↔ (65 ≤ r ∧ r ≤ 90) ∨ (192 ≤ r ∧ r ≤ 222 ∧ r ≠ 215) := by
  simp [goIsUpper, and_assoc]

lemma goIsLower_eq_true_iff (r : Nat) :
    goIsLower r = true ↔
      (97 ≤ r ∧ r ≤ 122) ∨ (223 ≤ r ∧ r ≤ 255 ∧ r ≠ 247) ∨
        r = 170 ∨ r = 181 ∨ r = 186 := by
  simp [goIsLower, and_assoc, or_assoc]

lemma goIsDigit_eq_true_iff (r : Nat) : goIsDigit r = true ↔ 48 ≤ r ∧ r ≤ 57 := by
  simp [goIsDigit]

lemma goIsNumber_eq_true_iff (r : Nat) :
    goIsNumber r = true ↔
      (48 ≤ r ∧ r ≤ 57) ∨ r = 178 ∨ r = 179 ∨ r = 185 ∨
        r = 188 ∨ r = 189 ∨ r = 190 := by
  simp [goIsNumber, goIsDigit, or_assoc]

lemma goIsSpace_eq_true_iff (r : Nat) :
    goIsSpace r = true ↔
      r = 9 ∨ r = 10 ∨ r = 11 ∨ r = 12 ∨ r = 13 ∨ r = 32 ∨ r = 133 ∨ r = 160 := by
  simp [goIsSpace, or_assoc]

lemma isSlugRune_eq_true_iff (r : Nat) :
    isSlugRune r = true ↔ (97 ≤ r ∧ r ≤ 122) ∨ (48 ≤ r ∧ r ≤ 57) ∨ r = 45 := by
  simp [isSlugRune, and_assoc, or_assoc]

lemma goToLower_eq_of_upper {r : Nat} (h : goIsUpper r = true) :
    goToLower r = r + 32 := by
  unfold goToLower; rw [if_pos h]

lemma goToLower_eq_of_not_upper {r : Nat} (h : goIsUpper r = false) :
    goToLower r = r := by
  unfold goToLower; rw [if_neg (by simp [h])]

lemma goIsUpper_add32 {r : Nat} (h : goIsUpper r = true) :
    goIsUpper (r + 32) = false := by
  rw [goIsUpper_eq_true_iff] at h
  rw [Bool.eq_false_iff]
  simp only [ne_eq, goIsUpper_eq_true_iff]
  omega

lemma goIsLower_add32 {r : Nat} (h : goIsUpper r = true) :
    goIsLower (r + 32) = true := by
  rw [goIsUpper_eq_true_iff] at h
  rw [goIsLower_eq_true_iff]
  omega

lemma goToLower_idem (r : Nat) : goToLower (goToLower r) = goToLower r := by
  by_cases h : goIsUpper r = true
  · rw [goToLower_eq_of_upper h, goToLower_eq_of_not_upper (goIsUpper_add32 h)]
  · have hr := goToLower_eq_of_not_upper (Bool.eq_false_iff.mpr h)
    rw [hr, hr]

lemma goIsLetter_goToLower (r : Nat) : goIsLetter (goToLower r) = goIsLetter r := by
  by_cases h : goIsUpper r = true
  · rw [goToLower_eq_of_upper h]
    simp [goIsLetter, h, goIsLower_add32 h, goIsUpper_add32 h]
  · rw [goToLower_eq_of_not_upper (Bool.eq_false_iff.mpr h)]

lemma goIsNumber_goToLower (r : Nat) : goIsNumber (goToLower r) = goIsNumber r := by
  by_cases h : goIsUpper r = true
  · rw [goToLower_eq_of_upper h]
    have hb := (goIsUpper_eq_true_iff _).mp h
    have h1 : goIsNumber r = false := by
      rw [Bool.eq_false_iff, Ne, goIsNumber_eq_true_iff]; omega
    have h2 : goIsNumber (r + 32) = false := by
      rw [Bool.eq_false_iff, Ne, goIsNumber_eq_true_iff]; omega
    rw [h1, h2]
  · rw [goToLower_eq_of_not_upper (Bool.eq_false_iff.mpr h)]

lemma splitRune_goToLower (r : Nat) :
    sentimentSplitRune (goToLower r) = sentimentSplitRune r := by
  by_cases h : goIsUpper r = true
  · have hb := (goIsUpper_eq_true_iff _).mp h
    have h39 : (goToLower r == 39) = (r == 39) := by
      rw [goToLower_eq_of_upper h]
      have e1 : ¬r = 7 := by omega
      have e2 : ¬r = 39 := by omega
      simp [e1, e2]
    unfold sentimentSplitRune
    rw [goIsLetter_goToLower, goIsNumber_goToLower, h39]
  · rw [goToLower_eq_of_not_upper (Bool.eq_false_iff.mpr h)]

lemma fieldsFuncAux_map (p : Nat → Bool) (f : Nat → Nat)
    (hp : ∀ r, p (f r) = p r) :
    ∀ (s acc : List Nat),
      fieldsFuncAux p (s.map f) (acc.map f) =
        (fieldsFuncAux p s acc).map (List.map f) := by
  intro s
  induction s with
  | nil =>
    intro acc
    rcases eq_or_ne acc [] with h | h
    · simp [h, fieldsFuncAux]
    · have hm : acc.map f ≠ [] := by simpa using h
      simp [h, hm, fieldsFuncAux]
  | cons c rest ih =>
    intro acc
    simp only [List.map_cons, fieldsFuncAux, hp c]
    by_cases hc : p c = true
    · rw [if_pos hc, if_pos hc]
      rcases eq_or_ne acc [] with h | h
      · have := ih []
        simp only [List.map_nil] at this
        simp [h, this]
      · have hm : acc.map f ≠ [] := by simpa using h
        have := ih []
        simp only [List.map_nil] at this
        simp [h, hm, this]
    · rw [if_neg hc, if_neg hc]
      have := ih (c :: acc)
      simpa using this

lemma goFieldsFunc_map (p : Nat → Bool) (f : Nat → Nat)
    (hp : ∀ r, p (f r) = p r) (s : List Nat) :
    goFieldsFunc p (s.map f) = (goFieldsFunc p s).map (List.map f) := by
  have := fieldsFuncAux_map p f hp s []
  simpa [goFieldsFunc] using this

lemma sentiment_hits_bounds {pc nc : ℕ} (h : 0 < pc + nc) :
    -1 ≤ ((pc : ℚ) - nc) / (pc + nc) ∧ ((pc : ℚ) - nc) / (pc + nc) ≤ 1 := by
  have hpos : (0 : ℚ) < (pc : ℚ) + nc := by
    have : (0 : ℚ) < ((pc + nc : ℕ) : ℚ) := by exact_mod_cast h
    push_cast at this
    linarith
  constructor
  · rw [le_div_iff₀ hpos]
    have h1 : (0 : ℚ) ≤ pc := by positivity
    linarith
  · rw [div_le_one hpos]
    have h1 : (0 : ℚ) ≤ nc := by positivity
    linarith

lemma analyzeCommentSentiment_eq_tokens (s : List Nat) :
    analyzeCommentSentiment s = sentimentByTokens sentimentSplitRune s := by
  unfold analyzeCommentSentiment sentimentByTokens goToLowerStr
  rw [goFieldsFunc_map sentimentSplitRune goToLower splitRune_goToLower]
  set toks := goFieldsFunc sentimentSplitRune s with htoks
  simp only [List.countP_map, Function.comp_def]
  split_ifs with h1 h2 h2
  · rfl
  · exfalso
    have he : toks = [] := by simpa using h1
    simp [he] at h2
  · rfl
  · push_cast
    exact clamp_eq_self (sentiment_hits_bounds (Nat.pos_of_ne_zero h2)).1
      (sentiment_hits_bounds (Nat.pos_of_ne_zero h2)).2

lemma sentimentByTokens_counts (split : Nat → Bool) (s : List Nat) (p n : ℕ)
    (hp : ((goFieldsFunc split s).map fun w => stripApostrophes (goToLowerStr w)).countP
      (fun w => positiveSentimentWords.contains w) = p)
    (hn : ((goFieldsFunc split s).map fun w => stripApostrophes (goToLowerStr w)).countP
      (fun w => negativeSentimentWords.contains w) = n) :
    sentimentByTokens split s =
      if p + n = 0 then 0 else ((p : ℚ) - n) / (p + n) := by
  simp only [sentimentByTokens]
  rw [hp, hn]

lemma analyzeCommentSentiment_bounds (s : List Nat) :
    -1 ≤ analyzeCommentSentiment s ∧ analyzeCommentSentiment s ≤ 1 := by
  simp only [analyzeCommentSentiment]
  split_ifs
  · norm_num
  · norm_num
  · exact ⟨le_clamp (by norm_num), clamp_le (by norm_num)⟩

/-- C3 counterexample: the claim describes the tokenizer as splitting on
every rune that is not a letter, digit, or apostrophe, but the code splits
with `unicode.IsNumber` (category N, a superset of the digits).  On the
comment `"good²good"` (`²` = U+00B2 is a number but not a digit) the
claim's tokenization yields two positive hits and sentiment 1, while
`analyzeCommentSentiment` keeps one unbroken token and returns 0. -/
theorem analyzeCommentSentiment_claim_counterexample :
    analyzeCommentSentiment (strToRunes "good²good") = 0 ∧
    claimCommentSentiment (strToRunes "good²good") = 1 := by
  constructor
  · rw [analyzeCommentSentiment_eq_tokens,
      sentimentByTokens_counts _ _ 0 0 (by decide) (by decide)]
    norm_num
  · rw [claimCommentSentiment,
      sentimentByTokens_counts _ _ 2 0 (by decide) (by decide)]
    norm_num

/-- C3 (amended): `analyzeCommentSentiment` lower-cases and tokenizes the
comment splitting on every rune that is neither a letter nor a numeric
rune (Unicode category N) nor an apostrophe, strips apostrophes, counts
lexicon hits, and returns `(positiveHits - negativeHits) /
(positiveHits + negativeHits)` (0 when there are no hits, so tokens
outside both lexicons never change the result); the result is always in
[-1, 1], and `"amazing and safe"` yields 1. -/
theorem analyzeCommentSentiment_spec :
    (∀ s, analyzeCommentSentiment s = sentimentByTokens sentimentSplitRune s) ∧
    (∀ s, -1 ≤ analyzeCommentSentiment s ∧ analyzeCommentSentiment s ≤ 1) ∧
    analyzeCommentSentiment (strToRunes "amazing and safe") = 1 := by
  refine ⟨analyzeCommentSentiment_eq_tokens, analyzeCommentSentiment_bounds, ?_⟩
  rw [analyzeCommentSentiment_eq_tokens,
    sentimentByTokens_counts _ _ 2 0 (by decide) (by decide)]
  norm_num

/-- C8: `decodeJSON` succeeds exactly on a body that is one well-formed
JSON value, within the endpoint's byte ceiling, with only declared fields
and nothing after it — so it errors whenever the body has an undeclared
field, more than one JSON value, malformed content, or exceeds the
ceiling; the ceilings wired to the endpoints are 4096 bytes for decision
creation and responses and 2048 bytes for votes. -/
theorem decodeJSON_spec :
    (∀ (maxBytes : Nat) (declared : List String) (body : RequestBody),
      decodeJSON maxBytes declared body = .ok () ↔
        (∃ d, body.docs = [d] ∧ d.size ≤ maxBytes ∧
          (∀ f ∈ d.fields, declared.contains f = true) ∧
          body.malformedTail = false)) ∧
    maxCreateDecisionBodyBytes = 4096 ∧ maxResponseBodyBytes = 4096 ∧
    maxVoteBodyBytes = 2048 := by
  refine ⟨?_, rfl, rfl, rfl⟩
  intro maxBytes declared body
  obtain ⟨docs, tail⟩ := body
  cases docs with
  | nil => simp [decodeJSON]
  | cons d rest =>
    simp only [decodeJSON]
    split_ifs with h1 h2 h3
    · simp only [reduceCtorEq, false_iff]
      rintro ⟨d', hd, hsize, -, -⟩
      obtain ⟨rfl, -⟩ := List.cons.injEq .. ▸ hd
      omega
    · simp only [reduceCtorEq, false_iff]
      rintro ⟨d', hd, -, hfields, -⟩
      obtain ⟨rfl, -⟩ := List.cons.injEq .. ▸ hd
      obtain ⟨f, hf, hfc⟩ := List.any_eq_true.mp h2
      have hmem := hfields f hf
      simp only [hmem, Bool.not_true] at hfc
      cases hfc
    · simp only [reduceCtorEq, false_iff]
      rintro ⟨d', hd, -, -, htail⟩
      obtain ⟨rfl, hrest⟩ := List.cons.injEq .. ▸ hd
      rcases Bool.or_eq_true _ _ |>.mp h3 with h | h
      · exact absurd hrest (by simpa using h)
      · simp only [htail] at h
        cases h
    · simp only [true_iff]
      refine ⟨d, ?_, by omega, ?_, ?_⟩
      · have : rest = [] := by
          by_contra hc
          exact h3 (by simp [hc])
        rw [this]
      · intro f hf
        by_contra hc
        refine h2 (List.any_eq_true.mpr ⟨f, hf, ?_⟩)
        simpa using hc
      · rcases Bool.eq_false_or_eq_true tail with ht | ht
        · exact absurd (by simp [ht]) h3
        · exact ht

/-- Witness for `decodeJSON_spec`: a single small declared-fields-only
document decodes. -/
theorem decodeJSON_spec_witness :
    decodeJSON 10 ["a"] ⟨[⟨["a"], 5⟩], false⟩ = .ok () :=
  (decodeJSON_spec.1 10 ["a"] ⟨[⟨["a"], 5⟩], false⟩).mpr
    ⟨⟨["a"], 5⟩, rfl, by norm_num, by decide, rfl⟩

lemma emojiLookup_range {e : List Nat} {rt : Int}
    (h : emojiLookup e = some rt) : 1 ≤ rt ∧ rt ≤ 5 := by
  unfold emojiLookup at h
  cases hf : emojiRatings.find? (fun p => p.1 == e) with
  | none => rw [hf] at h; cases h
  | some p =>
    rw [hf] at h
    have hp : p.2 = rt := by
      simpa using h
    have hm := List.mem_of_find?_eq_some hf
    simp only [emojiRatings, List.mem_cons, List.not_mem_nil, or_false] at hm
    rcases hm with h5 | h5 | h5 | h5 | h5 <;> (rw [h5] at hp; omega)

/-- C5: in the later schema, the stored rating comes solely from the fixed
emoji table: the handler's result never depends on the client-sent
`rating` field; a trimmed emoji outside the table yields 400 with the
stored responses unchanged; a trimmed emoji in the table maps to a rating
in 1..5, and when the request is stored the inserted row carries exactly
that table rating. -/
theorem handleCreateResponse_emoji_spec :
    ∀ (responses : List ResponseRow) (req : CreateResponseRequest)
      (viewerId : Nat) (decision : Option DecisionRec) (now : Int) (newId : Nat),
      req.viewerId = some viewerId →
      (∀ x y : Int,
        handleCreateResponse responses { req with rating := x } true decision now newId =
          handleCreateResponse responses { req with rating := y } true decision now newId) ∧
      (emojiLookup (goTrimSpace req.emoji) = none →
        handleCreateResponse responses req true decision now newId =
          (.badRequest, responses)) ∧
      (∀ rt, emojiLookup (goTrimSpace req.emoji) = some rt →
        1 ≤ rt ∧ rt ≤ 5 ∧
        ∀ (d : DecisionRec) (c : Option (List Nat)) (st' : List ResponseRow),
          decision = some d →
          normalizeComment req.comment = some c →
          handleCreateResponse responses req true decision now newId = (.created, st') →
          st' = responses ++
            [⟨newId, d.id, viewerId, rt, req.suggestion, goTrimSpace req.emoji, c⟩]) := by
  intro responses req viewerId decision now newId hviewer
  refine ⟨fun x y => rfl, ?_, ?_⟩
  · intro hnone
    simp only [handleCreateResponse, hviewer, hnone, Bool.not_true, Bool.false_eq_true,
      if_false]
    split_ifs <;> rfl
  · intro rt hrt
    obtain ⟨hlo, hhi⟩ := emojiLookup_range hrt
    refine ⟨hlo, hhi, ?_⟩
    intro d c st' hdec hcomm hres
    simp only [handleCreateResponse, hviewer, hrt, hdec, hcomm] at hres
    split_ifs at hres <;> simp_all

/-- Witness for `handleCreateResponse_emoji_spec`: a valid 🫡 submission
against an open decision stores rating 5. -/
theorem handleCreateResponse_emoji_spec_witness :
    handleCreateResponse []
        ⟨some 1, 42, 2, strToRunes "🫡", none⟩ true (some ⟨7, none⟩) 0 5 =
      (.created, [⟨5, 7, 1, 5, 2, strToRunes "🫡", none⟩]) ∧
    ([] : List ResponseRow) ++ [⟨5, 7, 1, 5, 2, strToRunes "🫡", none⟩] =
      [⟨5, 7, 1, 5, 2, strToRunes "🫡", none⟩] := by
  have h := handleCreateResponse_emoji_spec []
    ⟨some 1, 42, 2, strToRunes "🫡", none⟩ 1 (some ⟨7, none⟩) 0 5 rfl
  have hrun : handleCreateResponse []
      ⟨some 1, 42, 2, strToRunes "🫡", none⟩ true (some ⟨7, none⟩) 0 5 =
      (.created, [⟨5, 7, 1, 5, 2, strToRunes "🫡", none⟩]) := by decide
  have happ := (h.2.2 5 (by decide)).2.2 ⟨7, none⟩ none
    [⟨5, 7, 1, 5, 2, strToRunes "🫡", none⟩] rfl (by decide) hrun
  exact ⟨hrun, happ.symm⟩

/-- C7: for a validated request against an existing decision, the handler
returns 409 exactly when the decision's close time has passed or the
(decision, viewer) pair already has a response, and a 409 leaves the
stored responses unchanged; submitting twice for the same pair, the first
call stores the row (201) and the second returns 409 leaving the rows —
and hence the decision's response count — unchanged. -/
theorem handleCreateResponse_conflict_spec :
    ∀ (responses : List ResponseRow) (req : CreateResponseRequest)
      (viewerId : Nat) (d : DecisionRec) (now : Int) (newId : Nat)
      (rt : Int) (c : Option (List Nat)),
      req.viewerId = some viewerId →
      1 ≤ req.suggestion → req.suggestion ≤ 3 →
      emojiLookup (goTrimSpace req.emoji) = some rt →
      normalizeComment req.comment = some c →
      ((handleCreateResponse responses req true (some d) now newId).1 = .conflict ↔
        (closesAtPassed d.closesAt now = true ∨
          (responses.any fun r => r.decisionId == d.id && r.viewerId == viewerId) = true)) ∧
      ((handleCreateResponse responses req true (some d) now newId).1 = .conflict →
        (handleCreateResponse responses req true (some d) now newId).2 = responses) ∧
      (closesAtPassed d.closesAt now = false →
        (responses.any fun r => r.decisionId == d.id && r.viewerId == viewerId) = false →
        handleCreateResponse responses req true (some d) now newId =
          (.created, responses ++
            [⟨newId, d.id, viewerId, rt, req.suggestion, goTrimSpace req.emoji, c⟩]) ∧
        ∀ (now2 : Int) (newId2 : Nat),
          handleCreateResponse
              (responses ++
                [⟨newId, d.id, viewerId, rt, req.suggestion, goTrimSpace req.emoji, c⟩])
              req true (some d) now2 newId2 =
            (.conflict,
             responses ++
               [⟨newId, d.id, viewerId, rt, req.suggestion, goTrimSpace req.emoji, c⟩])) := by
  intro responses req viewerId d now newId rt c hviewer hs1 hs2 hrt hcomm
  have hsugg : ¬(req.suggestion < 1 ∨ 3 < req.suggestion) := by omega
  refine ⟨?_, ?_, ?_⟩
  · simp only [handleCreateResponse, hviewer, hrt, hcomm, Bool.not_true,
      Bool.false_eq_true, if_false, if_neg hsugg]
    split_ifs <;> simp_all
  · simp only [handleCreateResponse, hviewer, hrt, hcomm, Bool.not_true,
      Bool.false_eq_true, if_false, if_neg hsugg]
    split_ifs <;> simp
  · intro hopen hdup
    constructor
    · simp only [handleCreateResponse, hviewer, hrt, hcomm, Bool.not_true,
        Bool.false_eq_true, if_false, if_neg hsugg, hopen, hdup]
    · intro now2 newId2
      have hdup2 : ((responses ++
          [({ id := newId, decisionId := d.id, viewerId := viewerId, rating := rt,
              suggestion := req.suggestion, emoji := goTrimSpace req.emoji,
              comment := c } : ResponseRow)]).any
            fun r => r.decisionId == d.id && r.viewerId == viewerId) = true := by
        simp [List.any_append]
      simp only [handleCreateResponse, hviewer, hrt, hcomm, Bool.not_true,
        Bool.false_eq_true, if_false, if_neg hsugg, hdup2, ite_true]
      split_ifs <;> rfl

/-- Witness for `handleCreateResponse_conflict_spec`: a concrete first
submission succeeds and its immediate repeat conflicts without changing
the stored rows. -/
theorem handleCreateResponse_conflict_spec_witness :
    handleCreateResponse [] ⟨some 1, 3, 2, strToRunes "😄", none⟩ true
        (some ⟨7, none⟩) 0 5 =
      (.created, [⟨5, 7, 1, 4, 2, strToRunes "😄", none⟩]) ∧
    handleCreateResponse [⟨5, 7, 1, 4, 2, strToRunes "😄", none⟩]
        ⟨some 1, 3, 2, strToRunes "😄", none⟩ true (some ⟨7, none⟩) 1 6 =
      (.conflict, [⟨5, 7, 1, 4, 2, strToRunes "😄", none⟩]) := by
  have h := handleCreateResponse_conflict_spec [] ⟨some 1, 3, 2, strToRunes "😄", none⟩
    1 ⟨7, none⟩ 0 5 4 none rfl (by norm_num) (by norm_num) (by decide) rfl
  have h3 := h.2.2 (by decide) (by decide)
  exact ⟨h3.1, h3.2 1 6⟩

lemma bucketFind_eq_none_iff {bs : List (String × Nat × Int)} {key : String} :
    bucketFind bs key = none ↔ bs.find? (fun e => e.1 == key) = none := by
  unfold bucketFind
  cases bs.find? fun e => e.1 == key <;> simp

lemma bucketFind_sweep_some {bs : List (String × Nat × Int)} {key : String}
    {c : Nat} {R now : Int}
    (hf : bucketFind bs key = some (c, R)) (hR : now < R) :
    bucketFind (bucketSweep bs now) key = some (c, R) := by
  induction bs with
  | nil => simp [bucketFind, List.find?] at hf
  | cons e rest ih =>
    unfold bucketFind at hf ⊢
    unfold bucketSweep
    rcases he : (e.1 == key) with _ | _
    · rw [List.filter_cons]
      rw [List.find?_cons, he] at hf
      have ihr := ih (by unfold bucketFind; exact hf)
      unfold bucketFind bucketSweep at ihr
      split_ifs with hkeep
      · rw [List.find?_cons, he]
        exact ihr
      · exact ihr
    · simp only [List.find?_cons, he] at hf
      have he2 : e.2 = (c, R) := by simpa using hf
      rw [List.filter_cons, if_pos (by simp only [he2]; exact decide_eq_true hR)]
      simp only [List.find?_cons, he]
      exact hf

lemma bucketFind_sweep_none {bs : List (String × Nat × Int)} {key : String}
    (now : Int) (hf : bucketFind bs key = none) :
    bucketFind (bucketSweep bs now) key = none := by
  rw [bucketFind_eq_none_iff] at hf ⊢
  rw [List.find?_eq_none] at hf ⊢
  intro e he
  exact hf e (List.mem_of_mem_filter he)

lemma bucketFind_set_self (bs : List (String × Nat × Int)) (key : String)
    (v : Nat × Int) : bucketFind (bucketSet bs key v) key = some v := by
  unfold bucketSet
  split_ifs with hs
  · induction bs with
    | nil => simp at hs
    | cons e rest ih =>
      rcases he : (e.1 == key) with _ | _
      · unfold bucketFind
        rw [List.map_cons, if_neg (by simp [he]), List.find?_cons, he]
        rw [List.find?_cons, he] at hs
        have := ih hs
        unfold bucketFind at this
        exact this
      · unfold bucketFind
        rw [List.map_cons, if_pos he, List.find?_cons]
        simp
  · have hnone : bs.find? (fun e => e.1 == key) = none := by
      cases hfind : bs.find? fun e => e.1 == key
      · rfl
      · rw [hfind] at hs; simp at hs
    unfold bucketFind
    rw [List.find?_append, hnone]
    simp [List.find?_cons]

lemma keys_bucketSet {bs : List (String × Nat × Int)} {key : String}
    {v : Nat × Int} (hnd : (bs.map (·.1)).Nodup) :
    ((bucketSet bs key v).map (·.1)).Nodup := by
  unfold bucketSet
  split_ifs with hs
  · have hmap : (bs.map fun e => if e.1 == key then (key, v) else e).map (·.1) =
        bs.map (·.1) := by
      rw [List.map_map]
      refine List.map_congr_left ?_
      intro e he
      simp only [Function.comp_apply]
      split_ifs with hek
      · have hke : e.1 = key := by simpa using hek
        simp [hke]
      · rfl
    rw [hmap]
    exact hnd
  · rw [List.map_append]
    refine List.Nodup.append hnd (by simp) ?_
    intro a ha hb
    simp only [List.map_cons, List.map_nil, List.mem_cons, List.not_mem_nil,
      or_false] at hb
    obtain ⟨e, he, hke⟩ := List.mem_map.mp ha
    have hnone : bs.find? (fun x => x.1 == key) = none := by
      cases hfind : bs.find? fun x => x.1 == key
      · rfl
      · rw [hfind] at hs; simp at hs
    rw [List.find?_eq_none] at hnone
    exact hnone e he (by simp [hke, hb])

lemma keys_sweep {bs : List (String × Nat × Int)} (now : Int)
    (hnd : (bs.map (·.1)).Nodup) : ((bucketSweep bs now).map (·.1)).Nodup :=
  ((List.filter_sublist bs).map (·.1)).nodup hnd

lemma limiterAllow_step (l : LimiterState) (key : String) (now : Int)
    (c : Nat) (R : Int) (hl : 0 < l.limit) (hk : ¬key = "")
    (hnd : (l.buckets.map (·.1)).Nodup)
    (hf : bucketFind l.buckets key = some (c, R)) (hR : now < R) :
    (limiterAllow l key now).2.limit = l.limit ∧
    (limiterAllow l key now).2.window = l.window ∧
    ((limiterAllow l key now).2.buckets.map (·.1)).Nodup ∧
    (if c < l.limit then
      (limiterAllow l key now).1 = (true, 0) ∧
      bucketFind (limiterAllow l key now).2.buckets key = some (c + 1, R)
     else
      (limiterAllow l key now).1 = (false, R - now) ∧
      bucketFind (limiterAllow l key now).2.buckets key = some (c, R)) := by
  have h0 : ¬l.limit = 0 := by omega
  by_cases hclean : l.window ≤ now - l.lastCleanup
  · have hfind := bucketFind_sweep_some hf hR
    have hnd1 := keys_sweep now hnd
    simp only [limiterAllow, h0, hk, hclean, hfind, hR, if_false, if_true,
      ite_true, ite_false, if_neg, if_pos]
    split_ifs with hle hc hc
    · exact absurd hc (by omega)
    · exact ⟨rfl, rfl, hnd1, rfl, hfind⟩
    · exact ⟨rfl, rfl, keys_bucketSet hnd1, rfl, bucketFind_set_self _ _ _⟩
    · exact absurd hle (by omega)
  · simp only [limiterAllow, h0, hk, hclean, hf, hR, if_false, if_true,
      ite_true, ite_false]
    split_ifs with hle hc hc
    · exact absurd hc (by omega)
    · exact ⟨rfl, rfl, hnd, rfl, hf⟩
    · exact ⟨rfl, rfl, keys_bucketSet hnd, rfl, bucketFind_set_self _ _ _⟩
    · exact absurd hle (by omega)

lemma bucketFind_none_of_not_mem {bs : List (String × Nat × Int)} {key : String}
    (h : key ∉ bs.map (·.1)) : bucketFind bs key = none := by
  rw [bucketFind_eq_none_iff, List.find?_eq_none]
  intro e he hke
  exact h (List.mem_map.mpr ⟨e, he, (beq_iff_eq.mp hke)⟩)

lemma bucketFind_sweep_expired {bs : List (String × Nat × Int)} {key : String}
    {c : Nat} {R now : Int} (hnd : (bs.map (·.1)).Nodup)
    (hf : bucketFind bs key = some (c, R)) (hR : R ≤ now) :
    bucketFind (bucketSweep bs now) key = none := by
  induction bs with
  | nil => simp [bucketFind, List.find?] at hf
  | cons e rest ih =>
    rw [List.map_cons, List.nodup_cons] at hnd
    unfold bucketFind at hf
    unfold bucketFind bucketSweep
    rcases he : (e.1 == key) with _ | _
    · rw [List.find?_cons, he] at hf
      have ihr := ih hnd.2 (by unfold bucketFind; exact hf)
      unfold bucketFind bucketSweep at ihr
      rw [List.filter_cons]
      split_ifs with hkeep
      · rw [List.find?_cons, he]
        exact ihr
      · exact ihr
    · simp only [List.find?_cons, he] at hf
      have he2 : e.2 = (c, R) := by simpa using hf
      rw [List.filter_cons, if_neg (by simp only [he2]; simpa using not_lt.mpr hR)]
      have hkey : key ∉ rest.map (·.1) := by
        rw [← beq_iff_eq.mp he]
        exact hnd.1
      have hrest := bucketFind_sweep_none now
        (bucketFind_none_of_not_mem hkey)
      unfold bucketFind bucketSweep at hrest
      exact hrest

lemma limiterAllow_fresh (l : LimiterState) (key : String) (now : Int)
    (hl : 0 < l.limit) (hk : ¬key = "")
    (hnd : (l.buckets.map (·.1)).Nodup)
    (hf : bucketFind l.buckets key = none) :
    (limiterAllow l key now).1 = (true, 0) ∧
    (limiterAllow l key now).2.limit = l.limit ∧
    (limiterAllow l key now).2.window = l.window ∧
    ((limiterAllow l key now).2.buckets.map (·.1)).Nodup ∧
    bucketFind (limiterAllow l key now).2.buckets key = some (1, now + l.window) := by
  have h0 : ¬l.limit = 0 := by omega
  by_cases hclean : l.window ≤ now - l.lastCleanup
  · have hfind := bucketFind_sweep_none now hf
    have hnd1 := keys_sweep now hnd
    simp only [limiterAllow, h0, hk, hclean, hfind, if_false, if_true,
      ite_true, ite_false]
    split_ifs with hle
    · exact absurd hle (by omega)
    · exact ⟨rfl, rfl, rfl, keys_bucketSet hnd1, bucketFind_set_self _ _ _⟩
  · simp only [limiterAllow, h0, hk, hclean, hf, if_false, if_true,
      ite_true, ite_false]
    split_ifs with hle
    · exact absurd hle (by omega)
    · exact ⟨rfl, rfl, rfl, keys_bucketSet hnd, bucketFind_set_self _ _ _⟩

lemma limiterAllow_expired (l : LimiterState) (key : String) (now : Int)
    (c : Nat) (R : Int) (hl : 0 < l.limit) (hk : ¬key = "")
    (hnd : (l.buckets.map (·.1)).Nodup)
    (hf : bucketFind l.buckets key = some (c, R)) (hR : R ≤ now) :
    (limiterAllow l key now).1 = (true, 0) ∧
    bucketFind (limiterAllow l key now).2.buckets key = some (1, now + l.window) := by
  have h0 : ¬l.limit = 0 := by omega
  have hnotlt : ¬now < R := by omega
  by_cases hclean : l.window ≤ now - l.lastCleanup
  · have hfind := bucketFind_sweep_expired hnd hf hR
    have hnd1 := keys_sweep now hnd
    simp only [limiterAllow, h0, hk, hclean, hfind, if_false, if_true,
      ite_true, ite_false]
    split_ifs with hle
    · exact absurd hle (by omega)
    · exact ⟨rfl, bucketFind_set_self _ _ _⟩
  · simp only [limiterAllow, h0, hk, hclean, hf, hnotlt, if_false, if_true,
      ite_true, ite_false]
    split_ifs with hle
    · exact absurd hle (by omega)
    · exact ⟨rfl, bucketFind_set_self _ _ _⟩

lemma runLimiterCalls_cons (l : LimiterState) (key : String) (t : Int)
    (ts : List Int) :
    (runLimiterCalls l key (t :: ts)).1 =
      (limiterAllow l key t).1 ::
        (runLimiterCalls (limiterAllow l key t).2 key ts).1 := by
  cases h : limiterAllow l key t with
  | mk res l2 =>
    cases h2 : runLimiterCalls l2 key ts with
    | mk rest l3 => simp [runLimiterCalls, h, h2]

lemma runLimiterCalls_spec (key : String) (hk : ¬key = "") :
    ∀ (ts : List Int) (l : LimiterState) (c : Nat) (R : Int),
      0 < l.limit → (l.buckets.map (·.1)).Nodup →
      bucketFind l.buckets key = some (c, R) →
      (∀ t ∈ ts, t < R) →
      (runLimiterCalls l key ts).1 = expectedAllowResults c l.limit R ts := by
  intro ts
  induction ts with
  | nil =>
    intro l c R _ _ _ _
    simp [runLimiterCalls, expectedAllowResults]
  | cons t rest ih =>
    intro l c R hl hnd hf hts
    obtain ⟨hlim, hwin, hnd2, hstep⟩ :=
      limiterAllow_step l key t c R hl hk hnd hf (hts t (by simp))
    rw [runLimiterCalls_cons]
    by_cases hc : c < l.limit
    · rw [if_pos hc] at hstep
      have hrest := ih (limiterAllow l key t).2 (c + 1) R (by omega) hnd2 hstep.2
        (fun t' ht' => hts t' (by simp [ht']))
      rw [hstep.1, hrest, hlim]
      simp [expectedAllowResults, hc]
    · rw [if_neg hc] at hstep
      have hrest := ih (limiterAllow l key t).2 c R (by omega) hnd2 hstep.2
        (fun t' ht' => hts t' (by simp [ht']))
      rw [hstep.1, hrest, hlim]
      simp [expectedAllowResults, hc]

lemma expectedAllowResults_countP (limit : Nat) (R : Int) :
    ∀ (ts : List Int) (c : Nat),
      ((expectedAllowResults c limit R ts).countP fun e => e.1) =
        min ts.length (limit - c) := by
  intro ts
  induction ts with
  | nil => intro c; simp [expectedAllowResults]
  | cons t rest ih =>
    intro c
    by_cases hc : c < limit
    · simp only [expectedAllowResults, if_pos hc, List.countP_cons, ih,
        List.length_cons]
      norm_num
      omega
    · simp only [expectedAllowResults, if_neg hc, List.countP_cons, ih,
        List.length_cons]
      norm_num
      omega

lemma expectedAllowResults_denied {limit : Nat} {R : Int} :
    ∀ {ts : List Int} {c : Nat}, (∀ t ∈ ts, t < R) →
      ∀ e ∈ expectedAllowResults c limit R ts, e.1 = false → 0 < e.2 := by
  intro ts
  induction ts with
  | nil => intro c _ e he; simp [expectedAllowResults] at he
  | cons t rest ih =>
    intro c hts e he hfalse
    by_cases hc : c < limit
    · rw [expectedAllowResults, if_pos hc] at he
      rcases List.mem_cons.mp he with h | h
      · rw [h] at hfalse; cases hfalse
      · exact ih (fun t' ht' => hts t' (by simp [ht'])) e h hfalse
    · rw [expectedAllowResults, if_neg hc] at he
      rcases List.mem_cons.mp he with h | h
      · rw [h]
        have := hts t (by simp)
        simp only
        omega
      · exact ih (fun t' ht' => hts t' (by simp [ht'])) e h hfalse

lemma retryAfterSeconds_pos {d : Int} (hd : 0 < d) : 1 ≤ retryAfterSeconds d := by
  have h1 : 0 ≤ Int.tdiv d 1000000000 := Int.tdiv_nonneg (by omega) (by norm_num)
  simp only [retryAfterSeconds]
  split_ifs with ha hb hb <;> omega

/-- C9: for any key, starting with no bucket, a burst of calls whose times
all precede the first call's reset time behaves as the fixed-window
machine: the first `limit` calls are admitted and every later call is
denied with a positive remaining duration (whose rendered `Retry-After`
is at least 1 second), so at most `limit` calls are admitted before the
reset; and from any state, a call at or after the bucket's reset time
starts a fresh window and is admitted.  The configured limits are 120 per
minute per IP and 60 per minute per viewer. -/
theorem fixedWindowLimiter_spec :
    (∀ (l : LimiterState) (key : String) (t0 : Int) (ts : List Int),
      0 < l.limit → 0 < l.window → ¬key = "" →
      (l.buckets.map (·.1)).Nodup →
      bucketFind l.buckets key = none →
      (∀ t ∈ ts, t < t0 + l.window) →
      (runLimiterCalls l key (t0 :: ts)).1 =
        expectedAllowResults 0 l.limit (t0 + l.window) (t0 :: ts) ∧
      ((runLimiterCalls l key (t0 :: ts)).1.countP fun e => e.1) =
        min (ts.length + 1) l.limit ∧
      (∀ e ∈ (runLimiterCalls l key (t0 :: ts)).1, e.1 = false →
        0 < e.2 ∧ 1 ≤ retryAfterSeconds e.2)) ∧
    (∀ (l : LimiterState) (key : String) (now : Int) (c : Nat) (R : Int),
      0 < l.limit → ¬key = "" → (l.buckets.map (·.1)).Nodup →
      bucketFind l.buckets key = some (c, R) → R ≤ now →
      (limiterAllow l key now).1 = (true, 0) ∧
      bucketFind (limiterAllow l key now).2.buckets key = some (1, now + l.window)) ∧
    ipRateLimitPerMinute = 120 ∧ viewerRateLimitPerMinute = 60 ∧
    rateLimitWindow = 60 * 1000000000 := by
  refine ⟨?_, fun l key now c R hl hk hnd hf hR =>
    limiterAllow_expired l key now c R hl hk hnd hf hR, rfl, rfl, rfl⟩
  intro l key t0 ts hl hw hk hnd hf hts
  obtain ⟨hres0, hlim, hwin, hnd1, hfind1⟩ := limiterAllow_fresh l key t0 hl hk hnd hf
  have hts' : ∀ t ∈ ts, t < t0 + l.window := hts
  have hmain : (runLimiterCalls l key (t0 :: ts)).1 =
      expectedAllowResults 0 l.limit (t0 + l.window) (t0 :: ts) := by
    rw [runLimiterCalls_cons, hres0]
    have hrest := runLimiterCalls_spec key hk ts (limiterAllow l key t0).2 1
      (t0 + l.window) (by omega) hnd1 hfind1 hts'
    rw [hrest, hlim]
    simp [expectedAllowResults, hl]
  refine ⟨hmain, ?_, ?_⟩
  · rw [hmain, expectedAllowResults_countP]
    simp
  · intro e he hfalse
    rw [hmain] at he
    have hall : ∀ t ∈ t0 :: ts, t < t0 + l.window := by
      intro t ht
      rcases List.mem_cons.mp ht with h | h
      · omega
      · exact hts' t h
    exact ⟨expectedAllowResults_denied hall e he hfalse,
      retryAfterSeconds_pos (expectedAllowResults_denied hall e he hfalse)⟩

/-- Witness for `fixedWindowLimiter_spec`: limit 2, window 60ns, calls at
times 0, 1, 2, 3 — the third and fourth are denied with positive
remaining durations — and a later call at time 61 is admitted again. -/
theorem fixedWindowLimiter_spec_witness :
    (runLimiterCalls ⟨60, 2, [], 0⟩ "viewer:x" [0, 1, 2, 3]).1 =
      [(true, 0), (true, 0), (false, 58), (false, 57)] ∧
    (limiterAllow ⟨60, 2, [("viewer:x", 2, 60)], 0⟩ "viewer:x" 61).1 = (true, 0) := by
  have h1 := (fixedWindowLimiter_spec.1 ⟨60, 2, [], 0⟩ "viewer:x" 0 [1, 2, 3]
    (by norm_num) (by norm_num) (by decide) (by decide) (by decide)
    (by decide)).1
  have h2 := (fixedWindowLimiter_spec.2.1 ⟨60, 2, [("viewer:x", 2, 60)], 0⟩
    "viewer:x" 61 2 60 (by norm_num) (by decide) (by decide) (by decide)
    (by norm_num)).1
  exact ⟨by rw [h1]; decide, h2⟩

lemma find?_eq_head?_filter (p : VoteRow → Bool) (l : List VoteRow) :
    l.find? p = (l.filter p).head? := by
  induction l with
  | nil => rfl
  | cons a t ih =>
    by_cases h : p a = true
    · simp [List.find?_cons, List.filter_cons, h]
    · have hf : p a = false := Bool.eq_false_iff.mpr h
      rw [List.find?_cons, List.filter_cons, hf, if_neg Bool.false_ne_true]
      exact ih

lemma pairRows_length_le_one {st : List VoteRow} {d v : Nat}
    (hpw : st.Pairwise fun r q =>
      r.decisionId ≠ q.decisionId ∨ r.voterViewerId ≠ q.voterViewerId) :
    (pairRows st d v).length ≤ 1 := by
  have hpw2 : (pairRows st d v).Pairwise fun r q =>
      r.decisionId ≠ q.decisionId ∨ r.voterViewerId ≠ q.voterViewerId :=
    hpw.filter _
  cases hrows : pairRows st d v with
  | nil => simp
  | cons x t =>
    cases t with
    | nil => simp
    | cons y t2 =>
      exfalso
      rw [hrows] at hpw2
      have hR := (List.pairwise_cons.mp hpw2).1 y (by simp)
      have hx : x ∈ pairRows st d v := by rw [hrows]; simp
      have hy : y ∈ pairRows st d v := by rw [hrows]; simp
      have px := List.of_mem_filter hx
      have py := List.of_mem_filter hy
      simp only [Bool.and_eq_true, beq_iff_eq] at px py
      rcases hR with h | h
      · exact h (px.1.trans py.1.symm)
      · exact h (px.2.trans py.2.symm)

lemma toggle_state_insert (st : List VoteRow) (d v : Nat) (value : Int)
    (newId : Nat) (now : Int)
    (hfind : st.find? (fun r => r.decisionId == d && r.voterViewerId == v) = none) :
    (toggleDecisionVote st d v value newId now).1 =
      st ++ [⟨newId, d, v, value, now⟩] := by
  simp only [toggleDecisionVote, hfind]

lemma toggle_state_delete (st : List VoteRow) (d v : Nat) (value : Int)
    (newId : Nat) (now : Int) (r : VoteRow)
    (hfind : st.find? (fun r => r.decisionId == d && r.voterViewerId == v) = some r)
    (hrv : r.value = value) :
    (toggleDecisionVote st d v value newId now).1 =
      st.filter fun q => !(q.id == r.id) := by
  simp only [toggleDecisionVote, hfind, if_pos hrv]

lemma toggle_state_update (st : List VoteRow) (d v : Nat) (value : Int)
    (newId : Nat) (now : Int) (r : VoteRow)
    (hfind : st.find? (fun r => r.decisionId == d && r.voterViewerId == v) = some r)
    (hrv : ¬r.value = value) :
    (toggleDecisionVote st d v value newId now).1 = st.map fun q =>
      if q.id == r.id then { q with value := value, createdAt := now } else q := by
  simp only [toggleDecisionVote, hfind, if_neg hrv]

lemma toggle_preserves_inv (st : List VoteRow) (d v : Nat) (value : Int)
    (newId : Nat) (now : Int) (hinv : VoteStateInv st)
    (hval : value = 1 ∨ value = -1) (hfresh : newId ∉ st.map (·.id)) :
    VoteStateInv (toggleDecisionVote st d v value newId now).1 := by
  obtain ⟨hids, hpw, hvals⟩ := hinv
  cases hfind : st.find? fun r => r.decisionId == d && r.voterViewerId == v with
  | none =>
    rw [toggle_state_insert st d v value newId now hfind]
    refine ⟨?_, ?_, ?_⟩
    · rw [List.map_append]
      refine List.Nodup.append hids (by simp) ?_
      intro a ha hb
      simp only [List.map_cons, List.map_nil, List.mem_cons, List.not_mem_nil,
        or_false] at hb
      exact hfresh (hb ▸ ha)
    · rw [List.pairwise_append]
      refine ⟨hpw, by simp, ?_⟩
      intro r hr q hq
      simp only [List.mem_singleton] at hq
      subst hq
      have := List.find?_eq_none.mp hfind r hr
      simp only [Bool.and_eq_true, beq_iff_eq, not_and] at this
      by_cases hd : r.decisionId = d
      · exact Or.inr (by simpa using this hd)
      · exact Or.inl (by simpa using hd)
    · intro r hr
      rcases List.mem_append.mp hr with h | h
      · exact hvals r h
      · simp only [List.mem_singleton] at h
        subst h
        exact hval
  | some r =>
    by_cases hrv : r.value = value
    · rw [toggle_state_delete st d v value newId now r hfind hrv]
      refine ⟨?_, ?_, ?_⟩
      · exact ((List.filter_sublist st).map (·.id)).nodup hids
      · exact hpw.sublist (List.filter_sublist st)
      · intro q hq
        exact hvals q (List.mem_of_mem_filter hq)
    · rw [toggle_state_update st d v value newId now r hfind hrv]
      have hid : ∀ q : VoteRow,
          ((if q.id == r.id then { q with value := value, createdAt := now }
            else q) : VoteRow).id = q.id := by
        intro q
        by_cases h : (q.id == r.id) = true <;> simp [h]
      refine ⟨?_, ?_, ?_⟩
      · rw [List.map_map]
        have : ((·.id) ∘ fun q : VoteRow =>
            if q.id == r.id then { q with value := value, createdAt := now }
            else q) = (·.id) := by
          funext q
          exact hid q
        rw [this]
        exact hids
      · rw [List.pairwise_map]
        refine hpw.imp ?_
        intro a b hab
        rcases hab with h | h
        · refine Or.inl ?_
          by_cases ha : (a.id == r.id) = true <;> by_cases hb : (b.id == r.id) = true <;>
            simp [ha, hb, h]
        · refine Or.inr ?_
          by_cases ha : (a.id == r.id) = true <;> by_cases hb : (b.id == r.id) = true <;>
            simp [ha, hb, h]
      · intro q hq
        obtain ⟨q0, hq0, hq0e⟩ := List.mem_map.mp hq
        by_cases h : (q0.id == r.id) = true
        · rw [if_pos h] at hq0e
          rw [← hq0e]
          exact hval
        · rw [if_neg h] at hq0e
          rw [← hq0e]
          exact hvals q0 hq0

lemma runToggles_preserves_inv :
    ∀ (ops : List ToggleOp) (st : List VoteRow),
      VoteStateInv st → validOps st ops = true →
      VoteStateInv (runToggles st ops) := by
  intro ops
  induction ops with
  | nil => intro st hinv _; exact hinv
  | cons op rest ih =>
    intro st hinv hvalid
    simp only [validOps, Bool.and_eq_true] at hvalid
    obtain ⟨⟨hval, hfresh⟩, hrest⟩ := hvalid
    have hval2 : op.value = 1 ∨ op.value = -1 := by
      rcases Bool.or_eq_true _ _ |>.mp hval with h | h
      · exact Or.inl (by simpa using h)
      · exact Or.inr (by simpa using h)
    have hfresh2 : op.newId ∉ st.map (·.id) := by
      simpa using hfresh
    exact ih _ (toggle_preserves_inv st op.decisionId op.viewerId op.value
      op.newId op.now hinv hval2 hfresh2) hrest

/-- C1: per (decision, viewer) pair, `toggleDecisionVote` is exactly the
three-transition state machine — no existing vote inserts a row with the
given value, an existing vote with the same value deletes the row, and an
existing vote with the opposite value updates it in place (refreshing its
timestamp to the transaction time); consequently, from any state
satisfying the table invariant, any sequence of validated toggle calls
leaves at most one vote row per pair and every stored value is ±1. -/
theorem toggleDecisionVote_spec :
    ∀ (st : List VoteRow) (d v : Nat) (value : Int) (newId : Nat) (now : Int),
      VoteStateInv st → (value = 1 ∨ value = -1) → newId ∉ st.map (·.id) →
      (pairRows st d v = [] →
        pairRows (toggleDecisionVote st d v value newId now).1 d v =
          [⟨newId, d, v, value, now⟩]) ∧
      (∀ r, pairRows st d v = [r] → r.value = value →
        pairRows (toggleDecisionVote st d v value newId now).1 d v = []) ∧
      (∀ r, pairRows st d v = [r] → ¬r.value = value →
        pairRows (toggleDecisionVote st d v value newId now).1 d v =
          [{ r with value := value, createdAt := now }]) ∧
      (∀ ops, validOps st ops = true → ∀ d2 v2,
        (pairRows (runToggles st ops) d2 v2).length ≤ 1 ∧
        ∀ r ∈ pairRows (runToggles st ops) d2 v2, r.value = 1 ∨ r.value = -1) := by
  intro st d v value newId now hinv hval hfresh
  refine ⟨?_, ?_, ?_, ?_⟩
  · intro hpair
    unfold pairRows at hpair
    have hfind : st.find? (fun r => r.decisionId == d && r.voterViewerId == v) = none := by
      rw [find?_eq_head?_filter, hpair]
      rfl
    rw [toggle_state_insert st d v value newId now hfind]
    unfold pairRows
    rw [List.filter_append, hpair]
    simp
  · intro r hpair hrv
    unfold pairRows at hpair
    have hfind : st.find? (fun r => r.decisionId == d && r.voterViewerId == v) = some r := by
      rw [find?_eq_head?_filter, hpair]
      rfl
    rw [toggle_state_delete st d v value newId now r hfind hrv]
    unfold pairRows
    rw [List.filter_comm, hpair]
    simp
  · intro r hpair hrv
    unfold pairRows at hpair
    have hfind : st.find? (fun r => r.decisionId == d && r.voterViewerId == v) = some r := by
      rw [find?_eq_head?_filter, hpair]
      rfl
    rw [toggle_state_update st d v value newId now r hfind hrv]
    unfold pairRows
    rw [List.filter_map]
    have hcong : st.filter ((fun q : VoteRow => q.decisionId == d && q.voterViewerId == v) ∘
        fun q => if q.id == r.id then { q with value := value, createdAt := now } else q) =
        st.filter fun q => q.decisionId == d && q.voterViewerId == v := by
      refine List.filter_congr ?_
      intro q hq
      by_cases h : q.id = r.id <;> simp [h]
    rw [hcong, hpair]
    simp
  · intro ops hops d2 v2
    have hinv2 := runToggles_preserves_inv ops st hinv hops
    exact ⟨pairRows_length_le_one hinv2.2.1,
      fun r hr => hinv2.2.2 r (List.mem_of_mem_filter hr)⟩

/-- Witness for `toggleDecisionVote_spec`: from an empty table, a first
toggle with value +1 inserts one row for the pair, and the four-call
sequence +1, +1, +1, -1 leaves exactly one row whose value is ±1. -/
theorem toggleDecisionVote_spec_witness :
    pairRows (toggleDecisionVote [] 1 2 1 3 0).1 1 2 = [⟨3, 1, 2, 1, 0⟩] ∧
    (pairRows (runToggles [] [⟨1, 2, 1, 3, 0⟩, ⟨1, 2, 1, 4, 1⟩, ⟨1, 2, 1, 5, 2⟩,
      ⟨1, 2, -1, 6, 3⟩]) 1 2).length ≤ 1 := by
  have hinv : VoteStateInv [] := ⟨by simp, List.Pairwise.nil, by simp⟩
  have h := toggleDecisionVote_spec [] 1 2 1 3 0 hinv (Or.inl rfl) (by decide)
  refine ⟨h.1 rfl, ?_⟩
  have h2 := toggleDecisionVote_spec [] 1 2 1 3 0 hinv (Or.inl rfl) (by decide)
  exact (h2.2.2.2 [⟨1, 2, 1, 3, 0⟩, ⟨1, 2, 1, 4, 1⟩, ⟨1, 2, 1, 5, 2⟩,
    ⟨1, 2, -1, 6, 3⟩] (by decide) 1 2).1

lemma noAdjacentHyphens_cons (c : Nat) (l : List Nat) :
    noAdjacentHyphens (c :: l) =
      (!(c == 45 && l.head? == some 45) && noAdjacentHyphens l) := by
  cases l with
  | nil => simp [noAdjacentHyphens]
  | cons d rest => simp [noAdjacentHyphens]

lemma slugifyLoop_cons (started lastH : Bool) (c : Nat) (rest : List Nat) :
    slugifyLoop started lastH (c :: rest) =
      if (goIsLetter c || goIsDigit c) = true then c :: slugifyLoop true false rest
      else if (goIsSpace c || c == 45 || c == 95) = true then
        (if (!lastH && started) = true then 45 :: slugifyLoop started true rest
         else slugifyLoop started lastH rest)
      else slugifyLoop started lastH rest := rfl

lemma slugBodyChar_of_letter {c : Nat} (hc : (goIsLetter c || goIsDigit c) = true)
    (hl : goToLower c = c) : slugBodyChar c = true := by
  simp [slugBodyChar, hc, hl]

lemma letter_ne_45 {c : Nat} (hc : (goIsLetter c || goIsDigit c) = true) : c ≠ 45 := by
  rcases Bool.or_eq_true _ _ |>.mp hc with h | h
  · rcases Bool.or_eq_true _ _ |>.mp h with h2 | h2
    · have := (goIsUpper_eq_true_iff _).mp h2
      omega
    · have := (goIsLower_eq_true_iff _).mp h2
      omega
  · have := (goIsDigit_eq_true_iff _).mp h
    omega

lemma slugifyLoop_good :
    ∀ (s : List Nat) (started lastH : Bool),
      (∀ c ∈ s, goToLower c = c) →
      (slugifyLoop started lastH s).all slugBodyChar = true ∧
      noAdjacentHyphens (slugifyLoop started lastH s) = true ∧
      (lastH = true → (slugifyLoop started lastH s).head? ≠ some 45) ∧
      (started = false → (slugifyLoop started lastH s).head? ≠ some 45) := by
  intro s
  induction s with
  | nil =>
    intro started lastH _
    refine ⟨rfl, rfl, ?_, ?_⟩ <;> intro _ h <;> cases h
  | cons c rest ih =>
    intro started lastH hs
    have hrest : ∀ x ∈ rest, goToLower x = x := fun x hx => hs x (by simp [hx])
    by_cases hcd : (goIsLetter c || goIsDigit c) = true
    · obtain ⟨hall, hadj, hh1, hh0⟩ := ih true false hrest
      have hout : slugifyLoop started lastH (c :: rest) =
          c :: slugifyLoop true false rest := by
        rw [slugifyLoop_cons, if_pos hcd]
      rw [hout]
      have hc45 : c ≠ 45 := letter_ne_45 hcd
      refine ⟨?_, ?_, ?_, ?_⟩
      · rw [List.all_cons, slugBodyChar_of_letter hcd (hs c (by simp)), hall]
        rfl
      · simp [noAdjacentHyphens_cons, hc45, hadj]
      · intro _
        simp [hc45]
      · intro _
        simp [hc45]
    · by_cases hsp : (goIsSpace c || c == 45 || c == 95) = true
      · by_cases hemit : (!lastH && started) = true
        · obtain ⟨hall, hadj, hh1, hh0⟩ := ih started true hrest
          have hout : slugifyLoop started lastH (c :: rest) =
              45 :: slugifyLoop started true rest := by
            rw [slugifyLoop_cons, if_neg hcd, if_pos hsp, if_pos hemit]
          rw [hout]
          obtain ⟨hlH, hst⟩ := Bool.and_eq_true .. |>.mp hemit
          refine ⟨?_, ?_, ?_, ?_⟩
          · rw [List.all_cons, hall]
            simp [slugBodyChar]
          · have hhd := hh1 rfl
            simp [noAdjacentHyphens_cons, hadj, hhd]
          · intro hcontra
            rw [hcontra] at hlH
            cases hlH
          · intro hcontra
            rw [hcontra] at hst
            cases hst
        · have hout : slugifyLoop started lastH (c :: rest) =
              slugifyLoop started lastH rest := by
            rw [slugifyLoop_cons, if_neg hcd, if_pos hsp, if_neg hemit]
          rw [hout]
          exact ih started lastH hrest
      · have hout : slugifyLoop started lastH (c :: rest) =
            slugifyLoop started lastH rest := by
          rw [slugifyLoop_cons, if_neg hcd, if_neg hsp]
        rw [hout]
        exact ih started lastH hrest

lemma slugifyLoop_mem :
    ∀ (s : List Nat) (started lastH : Bool) (c : Nat),
      c ∈ slugifyLoop started lastH s → c = 45 ∨ c ∈ s := by
  intro s
  induction s with
  | nil => intro _ _ c hc; cases hc
  | cons a rest ih =>
    intro started lastH c hc
    by_cases hcd : (goIsLetter a || goIsDigit a) = true
    · rw [show slugifyLoop started lastH (a :: rest) =
          a :: slugifyLoop true false rest from by
        rw [slugifyLoop_cons, if_pos hcd]] at hc
      rcases List.mem_cons.mp hc with h | h
      · exact Or.inr (by simp [h])
      · rcases ih true false c h with h2 | h2
        · exact Or.inl h2
        · exact Or.inr (by simp [h2])
    · by_cases hsp : (goIsSpace a || a == 45 || a == 95) = true
      · by_cases hemit : (!lastH && started) = true
        · rw [show slugifyLoop started lastH (a :: rest) =
              45 :: slugifyLoop started true rest from by
            rw [slugifyLoop_cons, if_neg hcd, if_pos hsp, if_pos hemit]] at hc
          rcases List.mem_cons.mp hc with h | h
          · exact Or.inl h
          · rcases ih started true c h with h2 | h2
            · exact Or.inl h2
            · exact Or.inr (by simp [h2])
        · rw [show slugifyLoop started lastH (a :: rest) =
              slugifyLoop started lastH rest from by
            rw [slugifyLoop_cons, if_neg hcd, if_pos hsp, if_neg hemit]] at hc
          rcases ih started lastH c hc with h2 | h2
          · exact Or.inl h2
          · exact Or.inr (by simp [h2])
      · rw [show slugifyLoop started lastH (a :: rest) =
            slugifyLoop started lastH rest from by
          rw [slugifyLoop_cons, if_neg hcd, if_neg hsp]] at hc
        rcases ih started lastH c hc with h2 | h2
        · exact Or.inl h2
        · exact Or.inr (by simp [h2])

lemma dropWhile_eq_self_of_head {p : Nat → Bool} {l : List Nat}
    (h : ∀ x, l.head? = some x → p x = false) : l.dropWhile p = l := by
  cases l with
  | nil => rfl
  | cons a t =>
    have ha := h a rfl
    simp [List.dropWhile_cons, ha]

lemma head?_dropWhile {p : Nat → Bool} :
    ∀ {l : List Nat} {x : Nat}, (l.dropWhile p).head? = some x → p x = false := by
  intro l
  induction l with
  | nil => intro x hx; cases hx
  | cons a t ih =>
    intro x hx
    rw [List.dropWhile_cons] at hx
    split_ifs at hx with ha
    · exact ih hx
    · have : a = x := by simpa using hx
      rw [← this]
      exact Bool.eq_false_iff.mpr ha

lemma noAdjacentHyphens_append_left :
    ∀ {l₁ : List Nat} (l₂ : List Nat), noAdjacentHyphens (l₁ ++ l₂) = true →
      noAdjacentHyphens l₁ = true := by
  intro l₁
  induction l₁ with
  | nil => intro _ _; rfl
  | cons c t ih =>
    intro l₂ h
    rw [List.cons_append, noAdjacentHyphens_cons, Bool.and_eq_true] at h
    rw [noAdjacentHyphens_cons, Bool.and_eq_true]
    refine ⟨?_, ih l₂ h.2⟩
    cases t with
    | nil => simp
    | cons d tt =>
      rw [List.cons_append] at h
      simpa using h.1

lemma goodSlug_eq_true_iff (s : List Nat) :
    goodSlug s = true ↔
      s.all slugBodyChar = true ∧ noAdjacentHyphens s = true ∧
      s.head? ≠ some 45 ∧ s.getLast? ≠ some 45 := by
  simp [goodSlug, and_assoc]

lemma slugify_trim_prefix {out : List Nat} (hhead : out.head? ≠ some 45) :
    trimHyphens out <+: out ∧
    (∀ x, (trimHyphens out).getLast? = some x → x ≠ 45) := by
  have hfront : out.dropWhile (· == 45) = out := by
    refine dropWhile_eq_self_of_head ?_
    intro x hx
    have : x ≠ 45 := fun hc => hhead (hc ▸ hx)
    simpa using this
  constructor
  · unfold trimHyphens
    rw [hfront]
    have hsuff : out.reverse.dropWhile (· == 45) <:+ out.reverse :=
      List.dropWhile_suffix _
    have : (out.reverse.dropWhile (· == 45)).reverse.reverse <:+ out.reverse := by
      rwa [List.reverse_reverse]
    exact List.reverse_suffix.mp this
  · intro x hx
    unfold trimHyphens at hx
    rw [hfront] at hx
    rw [List.getLast?_eq_head?_reverse, List.reverse_reverse] at hx
    have := head?_dropWhile hx
    simpa using this

lemma slugify_good (s : List Nat) : goodSlug (slugify s) = true := by
  have hlow : ∀ c ∈ goToLowerStr (goTrimSpace s), goToLower c = c := by
    intro c hc
    obtain ⟨d, -, hd⟩ := List.mem_map.mp hc
    rw [← hd]
    exact goToLower_idem d
  obtain ⟨hall, hadj, -, hh0⟩ := slugifyLoop_good (goToLowerStr (goTrimSpace s))
    false false hlow
  set out := slugifyLoop false false (goToLowerStr (goTrimSpace s)) with hout
  have hhead : out.head? ≠ some 45 := hh0 rfl
  obtain ⟨hpre, hlast⟩ := slugify_trim_prefix hhead
  have hsub := hpre.sublist
  obtain ⟨tail, htail⟩ := hpre
  rw [show slugify s = trimHyphens out from rfl, goodSlug_eq_true_iff]
  refine ⟨?_, ?_, ?_, ?_⟩
  · rw [List.all_eq_true] at hall ⊢
    intro x hx
    exact hall x (hsub.subset hx)
  · exact noAdjacentHyphens_append_left tail (by rw [htail]; exact hadj)
  · cases hf : (trimHyphens out) with
    | nil => simp
    | cons x xs =>
      have hxh : out.head? = some x := by
        rw [← htail, hf]
        rfl
      have hx45 : x ≠ 45 := fun hc => hhead (by rw [hxh, hc])
      simpa using hx45
  · intro hc
    exact hlast 45 hc rfl

lemma mem_of_head? {l : List Nat} {x : Nat} (h : l.head? = some x) : x ∈ l := by
  cases l with
  | nil => cases h
  | cons a t =>
    have : a = x := by simpa using h
    simp [this]

lemma slugBodyChar_cases {c : Nat} (h : slugBodyChar c = true) :
    ((goIsLetter c || goIsDigit c) = true ∧ goToLower c = c) ∨ c = 45 := by
  simp only [slugBodyChar, Bool.or_eq_true, Bool.and_eq_true, beq_iff_eq] at h
  rcases h with ⟨h1, h2⟩ | h
  · exact Or.inl ⟨Bool.or_eq_true _ _ |>.mpr h1, h2⟩
  · exact Or.inr h

lemma slugBodyChar_fix {c : Nat} (h : slugBodyChar c = true) : goToLower c = c := by
  rcases slugBodyChar_cases h with ⟨-, h2⟩ | h2
  · exact h2
  · subst h2
    refine goToLower_eq_of_not_upper ?_
    rw [Bool.eq_false_iff, Ne, goIsUpper_eq_true_iff]
    omega

lemma slugBodyChar_not_upper {c : Nat} (h : slugBodyChar c = true) :
    goIsUpper c = false := by
  rw [Bool.eq_false_iff]
  intro hu
  have := goToLower_eq_of_upper hu
  rw [slugBodyChar_fix h] at this
  omega

lemma slugBodyChar_ranges {c : Nat} (h : slugBodyChar c = true) :
    (97 ≤ c ∧ c ≤ 122) ∨ (223 ≤ c ∧ c ≤ 255 ∧ c ≠ 247) ∨
      c = 170 ∨ c = 181 ∨ c = 186 ∨ (48 ≤ c ∧ c ≤ 57) ∨ c = 45 := by
  rcases slugBodyChar_cases h with ⟨h1, -⟩ | h2
  · rcases Bool.or_eq_true _ _ |>.mp h1 with hl | hd
    · have hu := slugBodyChar_not_upper h
      rcases Bool.or_eq_true _ _ |>.mp hl with hup | hlow
      · rw [hup] at hu; cases hu
      · have := (goIsLower_eq_true_iff _).mp hlow
        tauto
    · have := (goIsDigit_eq_true_iff _).mp hd
      tauto
  · tauto

lemma slugBodyChar_not_space {c : Nat} (h : slugBodyChar c = true) :
    goIsSpace c = false := by
  have := slugBodyChar_ranges h
  rw [Bool.eq_false_iff, Ne, goIsSpace_eq_true_iff]
  omega

lemma slugBodyChar_slugRune {c : Nat} (h : slugBodyChar c = true) (hc : c < 128) :
    isSlugRune c = true := by
  have := slugBodyChar_ranges h
  rw [isSlugRune_eq_true_iff]
  omega

lemma goTrimSpace_eq_self {l : List Nat} (h : ∀ c ∈ l, goIsSpace c = false) :
    goTrimSpace l = l := by
  unfold goTrimSpace
  rw [dropWhile_eq_self_of_head (fun x hx => h x (mem_of_head? hx))]
  rw [dropWhile_eq_self_of_head (fun x hx =>
    h x (by simpa using mem_of_head? hx))]
  exact List.reverse_reverse l

lemma map_fix {f : Nat → Nat} : ∀ {l : List Nat}, (∀ c ∈ l, f c = c) → l.map f = l := by
  intro l
  induction l with
  | nil => intro _; rfl
  | cons a t ih =>
    intro h
    rw [List.map_cons, h a (by simp), ih fun c hc => h c (by simp [hc])]

lemma trimHyphens_eq_self {l : List Nat} (h1 : l.head? ≠ some 45)
    (h2 : l.getLast? ≠ some 45) : trimHyphens l = l := by
  unfold trimHyphens
  have hfront : l.dropWhile (· == 45) = l := by
    refine dropWhile_eq_self_of_head ?_
    intro x hx
    have : x ≠ 45 := fun hc => h1 (hc ▸ hx)
    simpa using this
  have hback : l.reverse.dropWhile (· == 45) = l.reverse := by
    refine dropWhile_eq_self_of_head ?_
    intro x hx
    rw [← List.getLast?_eq_head?_reverse] at hx
    have : x ≠ 45 := fun hc => h2 (hc ▸ hx)
    simpa using this
  rw [hfront, hback, List.reverse_reverse]

lemma slugifyLoop_fix :
    ∀ (t : List Nat) (started lastH : Bool),
      t.all slugBodyChar = true → noAdjacentHyphens t = true →
      (t.head? = some 45 → started = true ∧ lastH = false) →
      slugifyLoop started lastH t = t := by
  intro t
  induction t with
  | nil => intro _ _ _ _ _; rfl
  | cons c rest ih =>
    intro started lastH hall hadj hhead
    rw [List.all_cons, Bool.and_eq_true] at hall
    rw [noAdjacentHyphens_cons, Bool.and_eq_true] at hadj
    rcases slugBodyChar_cases hall.1 with ⟨hcd, -⟩ | hc45
    · rw [slugifyLoop_cons, if_pos hcd]
      rw [ih true false hall.2 hadj.2 (fun _ => ⟨rfl, rfl⟩)]
    · subst hc45
      obtain ⟨hst, hlH⟩ := hhead rfl
      have hrestHead : rest.head? ≠ some 45 := by
        intro hcontra
        rw [hcontra] at hadj
        simpa using hadj.1
      rw [slugifyLoop_cons, if_neg (by decide), if_pos (by decide),
        if_pos (by rw [hst, hlH]; rfl)]
      rw [ih started true hall.2 hadj.2 (fun hc => absurd hc hrestHead)]

lemma goodSlug_slugify_fix {t : List Nat} (h : goodSlug t = true) :
    slugify t = t := by
  obtain ⟨hall, hadj, hhead, hlast⟩ := (goodSlug_eq_true_iff t).mp h
  have hmem : ∀ c ∈ t, slugBodyChar c = true := List.all_eq_true.mp hall
  unfold slugify
  rw [goTrimSpace_eq_self fun c hc => slugBodyChar_not_space (hmem c hc)]
  rw [show goToLowerStr t = t from map_fix fun c hc => slugBodyChar_fix (hmem c hc)]
  rw [slugifyLoop_fix t false false hall hadj (fun hc => absurd hc hhead)]
  exact trimHyphens_eq_self hhead hlast

/-- C10: `slugify` is idempotent — every output is already normalized
(only lowered letters/digits and hyphens, no adjacent hyphens, no leading
or trailing hyphen), and reapplying `slugify` to its own output is the
identity. -/
theorem slugify_idempotent :
    ∀ s : List Nat, slugify (slugify s) = slugify s ∧ goodSlug (slugify s) = true :=
  fun s => ⟨goodSlug_slugify_fix (slugify_good s), slugify_good s⟩

lemma head?_append_left {l₁ l₂ : List Nat} (h : l₁ ≠ []) :
    (l₁ ++ l₂).head? = l₁.head? := by
  cases l₁ with
  | nil => exact absurd rfl h
  | cons a t => rfl

lemma validateTitle_eq {raw title : List Nat}
    (hv : validateTitle raw = some title) :
    title = goTrimSpace (normalizeLineBreaks raw) := by
  simp only [validateTitle, normalizeRequiredText] at hv
  split_ifs at hv
  exact (Option.some.inj hv).symm

lemma mem_replaceCRLF : ∀ {s : List Nat} (c : Nat),
    c ∈ replaceCRLF s → c ∈ s ∨ c = 10 := by
  intro s
  induction s using replaceCRLF.induct with
  | case1 a d rest hcond ih =>
    intro c hc
    rw [show replaceCRLF (a :: d :: rest) =
        if (a == 13 && d == 10) = true then 10 :: replaceCRLF rest
        else a :: replaceCRLF (d :: rest) from rfl, if_pos hcond] at hc
    rcases List.mem_cons.mp hc with h | h
    · exact Or.inr h
    · rcases ih c h with h2 | h2
      · exact Or.inl (by simp [h2])
      · exact Or.inr h2
  | case2 a d rest hcond ih =>
    intro c hc
    rw [show replaceCRLF (a :: d :: rest) =
        if (a == 13 && d == 10) = true then 10 :: replaceCRLF rest
        else a :: replaceCRLF (d :: rest) from rfl, if_neg hcond] at hc
    rcases List.mem_cons.mp hc with h | h
    · exact Or.inl (by simp [h])
    · rcases ih c h with h2 | h2
      · exact Or.inl (by simp [List.mem_cons.mp h2])
      · exact Or.inr h2
  | case3 a =>
    intro c hc
    rw [show replaceCRLF [a] = [a] from rfl] at hc
    exact Or.inl hc
  | case4 =>
    intro c hc
    cases hc

lemma mem_normalizeLineBreaks {s : List Nat} {c : Nat}
    (h : c ∈ normalizeLineBreaks s) : c ∈ s ∨ c = 10 := by
  unfold normalizeLineBreaks replaceCR at h
  obtain ⟨d, hd, hde⟩ := List.mem_map.mp h
  by_cases h13 : d = 13
  · right
    rw [if_pos h13] at hde
    exact hde.symm
  · rw [if_neg h13] at hde
    rcases mem_replaceCRLF d hd with h2 | h2
    · exact Or.inl (hde ▸ h2)
    · exact Or.inr (hde ▸ h2)

lemma mem_goTrimSpace {s : List Nat} {c : Nat} (h : c ∈ goTrimSpace s) : c ∈ s := by
  unfold goTrimSpace at h
  rw [List.mem_reverse] at h
  have h2 := (List.dropWhile_sublist _).subset h
  rw [List.mem_reverse] at h2
  exact (List.dropWhile_sublist _).subset h2

lemma mem_trimHyphens {s : List Nat} {c : Nat} (h : c ∈ trimHyphens s) : c ∈ s := by
  unfold trimHyphens at h
  rw [List.mem_reverse] at h
  have h2 := (List.dropWhile_sublist _).subset h
  rw [List.mem_reverse] at h2
  exact (List.dropWhile_sublist _).subset h2

lemma goToLower_lt_128 {d : Nat} (h : d < 128) : goToLower d < 128 := by
  unfold goToLower
  split_ifs with hu
  · have := (goIsUpper_eq_true_iff _).mp hu
    omega
  · exact h

lemma suffixAlphabet_facts :
    ∀ n, n < 36 →
      isSlugRune (suffixAlphabet.getD n 97) = true ∧
      suffixAlphabet.getD n 97 ≠ 45 := by decide

lemma randSuffix_facts {draws : List Nat} (h : ∀ n ∈ draws, n < 36) :
    ∀ c ∈ randSuffix draws, isSlugRune c = true ∧ c ≠ 45 := by
  intro c hc
  obtain ⟨n, hn, hne⟩ := List.mem_map.mp hc
  rw [← hne]
  exact suffixAlphabet_facts n (h n hn)

lemma isValidSlug_build {base suffix : List Nat}
    (hbase_ne : base ≠ [])
    (hbase_all : ∀ c ∈ base, isSlugRune c = true)
    (hhead : base.head? ≠ some 45)
    (hsuffix_ne : suffix ≠ [])
    (hsuffix_all : ∀ c ∈ suffix, isSlugRune c = true ∧ c ≠ 45) :
    isValidSlug (base ++ 45 :: suffix) = true := by
  unfold isValidSlug
  have hh : (base ++ 45 :: suffix).head? = base.head? := head?_append_left hbase_ne
  have hrev : (base ++ 45 :: suffix).reverse =
      suffix.reverse ++ (45 :: base.reverse) := by
    rw [List.reverse_append, List.reverse_cons, List.append_assoc]
    rfl
  have hlastEq : (base ++ 45 :: suffix).getLast? = suffix.reverse.head? := by
    rw [List.getLast?_eq_head?_reverse, hrev,
      head?_append_left (by simpa using hsuffix_ne)]
  have hlast : ∀ x, suffix.reverse.head? = some x → x ≠ 45 := by
    intro x hx
    exact (hsuffix_all x (by rw [← List.mem_reverse]; exact mem_of_head? hx)).2
  refine (Bool.and_eq_true ..).mpr ⟨(Bool.and_eq_true ..).mpr ⟨?_, ?_⟩, ?_⟩
  · rw [hh]
    cases hb : base.head? with
    | none => rfl
    | some a =>
      have : a ≠ 45 := fun hc => hhead (by rw [hb, hc])
      simpa using this
  · rw [hlastEq]
    cases hs : suffix.reverse.head? with
    | none => rfl
    | some a =>
      have := hlast a hs
      simpa using this
  · rw [List.all_append, List.all_cons]
    refine (Bool.and_eq_true ..).mpr ⟨List.all_eq_true.mpr hbase_all,
      (Bool.and_eq_true ..).mpr ⟨by decide, List.all_eq_true.mpr
        (fun c hc => (hsuffix_all c hc).1)⟩⟩

/-- C4 counterexample: the title `"café time"` passes validation (9 runes,
no control characters), but its slug keeps the non-ASCII letter `é`
(U+00E9), which is outside `isValidSlug`'s `[a-z0-9-]` charset — so the
claim that every validated title yields a slug matching the allowed
charset is false. -/
theorem createDecisionSlug_claim_counterexample :
    validateTitle (strToRunes "café time") = some (strToRunes "café time") ∧
    isValidSlug (createDecisionSlug (strToRunes "café time") [0, 1, 2, 3, 4]) =
      false := by decide

/-- C4 (amended): for every ASCII title that passes validation, decision
creation produces the slugified base (fallback `"decision"` when empty)
followed by a hyphen and the 5-character lowercase-alphanumeric random
suffix, and that slug matches the allowed slug charset; titles containing
non-ASCII letters or digits can instead yield slugs outside the charset. -/
theorem createDecisionSlug_spec :
    ∀ (raw title draws : List Nat),
      validateTitle raw = some title →
      (∀ c ∈ raw, c < 128) →
      draws.length = 5 →
      (∀ n ∈ draws, n < 36) →
      isValidSlug (createDecisionSlug title draws) = true ∧
      (randSuffix draws).length = 5 ∧
      (∀ c ∈ randSuffix draws, isSlugRune c = true ∧ c ≠ 45) := by
  intro raw title draws hv hascii hlen hdraws
  have htitle : ∀ c ∈ title, c < 128 := by
    intro c hc
    rw [validateTitle_eq hv] at hc
    rcases mem_normalizeLineBreaks (mem_goTrimSpace hc) with h | h
    · exact hascii c h
    · omega
  have hsuffix := randSuffix_facts hdraws
  have hsuffix_ne : randSuffix draws ≠ [] := by
    intro hc
    have : (randSuffix draws).length = 5 := by simp [randSuffix, hlen]
    rw [hc] at this
    simp at this
  refine ⟨?_, by simp [randSuffix, hlen], hsuffix⟩
  have hslug_ascii : ∀ c ∈ slugify title, c < 128 := by
    intro c hc
    rcases slugifyLoop_mem _ false false c (mem_trimHyphens hc) with h | h
    · omega
    · obtain ⟨d, hd, hde⟩ := List.mem_map.mp h
      rw [← hde]
      exact goToLower_lt_128 (htitle d (mem_goTrimSpace hd))
  have hgood := slugify_good title
  rw [goodSlug_eq_true_iff] at hgood
  obtain ⟨hall, -, hhead, -⟩ := hgood
  unfold createDecisionSlug
  by_cases hnil : slugify title = []
  · rw [if_pos hnil]
    refine isValidSlug_build (by decide) (by decide) (by decide) hsuffix_ne hsuffix
  · rw [if_neg hnil]
    refine isValidSlug_build hnil ?_ hhead hsuffix_ne hsuffix
    intro c hc
    exact slugBodyChar_slugRune (List.all_eq_true.mp hall c hc) (hslug_ascii c hc)

/-- Witness for `createDecisionSlug_spec`: the ASCII title
`"My Life Decision"` yields the valid slug `my-life-decision-abcde`. -/
theorem createDecisionSlug_spec_witness :
    isValidSlug (createDecisionSlug (strToRunes "My Life Decision")
      [0, 1, 2, 3, 4]) = true :=
  (createDecisionSlug_spec (strToRunes "My Life Decision")
    (strToRunes "My Life Decision") [0, 1, 2, 3, 4] (by decide) (by decide)
    (by decide) (by decide)).1

end RMLD
